/-
Verification of the oc-mirror core against its specification.

This file shallowly embeds the parts of the oc-mirror sources relevant to the
claims under scrutiny:

* the mirror-aware HTTP transport
  (v2/internal/pkg/imagebuilder/transport/mirrored-transport.go),
* the batch copier (v2/internal/pkg/batch/worker.go),
* the delete pipeline (internal delete package, v2alpha1 variant, and the
  legacy v1alpha variant),
* the operator-catalog related-image filter (pkg/cli/mirror/copy.go),
* the image blob gatherer (archive package),
* the archive extractor (pkg/archive/unarchive.go).

Library collaborators (net/url parsing, the inner http.RoundTripper, the
image-copy primitive, the container registry, the semver parser, the
filesystem) are modelled as explicit oracle parameters; the control flow and
data transformations of the repository functions themselves are translated
statement by statement from the Go sources.
-/
import Mathlib

/-! ## Common string helpers (Go strings package fragments)

Implemented by structural recursion on the character lists so that concrete
runs reduce inside the kernel. -/

/-- Whether pre is a prefix of s. -/
def isPrefixList : List Char → List Char → Bool
  | [], _ => true
  | _ :: _, [] => false
  | a :: as, b :: bs => a = b && isPrefixList as bs

/-- Go strings.HasPrefix. -/
def hasPrefixGo (s pre : String) : Bool :=
  isPrefixList pre.data s.data

/-- Occurrence scan for Go strings.Contains. -/
def containsList (pat : List Char) : List Char → Bool
  | [] => pat.isEmpty
  | c :: rest => isPrefixList pat (c :: rest) || containsList pat rest

/-- Go strings.Contains: true iff pat occurs in s (the empty pattern always
occurs). -/
def containsSub (s pat : String) : Bool :=
  containsList pat.data s.data

/-- Replace the first (leftmost) occurrence of old by nw; identity when old
does not occur. -/
def replaceFirstAux (old nw : List Char) : List Char → List Char
  | [] => []
  | c :: rest =>
    if isPrefixList old (c :: rest) then nw ++ (c :: rest).drop old.length
    else c :: replaceFirstAux old nw rest

/-- Go strings.Replace(s, old, new, 1): replace the first occurrence of old
in s by nw; with an empty old, Go inserts nw at the start. -/
def replaceFirst (s old nw : String) : String :=
  if old = "" then nw ++ s
  else ⟨replaceFirstAux old.data nw.data s.data⟩

/-- Replace every non-overlapping occurrence, scanning left to right; the
fuel argument (one step per character examined) makes the recursion
structural, any fuel of at least the string length is enough. -/
def replaceAllAux (old nw : List Char) : Nat → List Char → List Char
  | 0, s => s
  | Nat.succ _, [] => []
  | Nat.succ n, c :: rest =>
    if isPrefixList old (c :: rest) then nw ++ replaceAllAux old nw n ((c :: rest).drop old.length)
    else c :: replaceAllAux old nw n rest

/-- Go strings.Replace(s, old, new, -1): replace every occurrence. The empty
pattern edge case (Go interleaves nw between characters) is not modelled; the
claims only exercise non-empty patterns. -/
def replaceAll (s old nw : String) : String :=
  if old = "" then s
  else ⟨replaceAllAux old.data nw.data (s.data.length + 1) s.data⟩

/-- Split at the first occurrence of pat: the characters before it and the
characters after it, or none when pat does not occur. -/
def breakOnAux (pat : List Char) : List Char → Option (List Char × List Char)
  | [] => if pat.isEmpty then some ([], []) else none
  | c :: rest =>
    if isPrefixList pat (c :: rest) then some ([], (c :: rest).drop pat.length)
    else
      match breakOnAux pat rest with
      | some (pre, post) => some (c :: pre, post)
      | none => none

/-! ## Mirror-aware HTTP transport (mirrored-transport.go)

The Go code keeps `in *http.Request` and mutates `in.URL` in place
(line `in.URL = mirroredRequestURL` of useMirrorEndpoint); the embedding
threads the current value of in.URL explicitly. net/url parsing and the
inner http.RoundTripper are oracle parameters. -/

/-- The fields of net/url.URL the transport reads and writes. -/
structure GoURL where
  scheme : String
  host : String
  path : String
deriving DecidableEq

/-- Go URL.String() for the URLs modelled here: scheme://host+path, or
host+path when no scheme is present. -/
def GoURL.urlString (u : GoURL) : String :=
  if u.scheme = "" then u.host ++ u.path else u.scheme ++ "://" ++ u.host ++ u.path

structure MirrorEndpoint where
  endpoint : String
  secure : Bool
deriving DecidableEq

structure Mirror where
  originUrl : String
  mirrorEndpoints : List MirrorEndpoint
deriving DecidableEq

/-- Mirror.isApplicableTo: parse the origin URL; on error the caller treats
the mirror as not applicable (isApplicable && err == nil). Otherwise the
mirror applies when the request host contains the origin host or the request
path contains the origin path (substring, Go strings.Contains). -/
def Mirror.isApplicableTo (parse : String → Option GoURL) (m : Mirror) (u : GoURL) : Bool :=
  match parse m.originUrl with
  | none => false
  | some mu => containsSub u.host mu.host || containsSub u.path mu.path

/-- Mirror.useMirrorEndpoint: rewrite the current request URL u onto the
endpoint. Returns none when one of the three url.Parse calls fails (the Go
code then returns the request unchanged together with the error, and the
caller skips to the next endpoint); returns the rewritten URL otherwise, the
Go code assigning it to in.URL in place. -/
def Mirror.useMirrorEndpoint (parse : String → Option GoURL) (m : Mirror)
    (ep : MirrorEndpoint) (u : GoURL) : Option GoURL :=
  let originURL := if hasPrefixGo m.originUrl "http" then m.originUrl else "https://" ++ m.originUrl
  match parse originURL with
  | none => none
  | some mirrorUrl =>
    let endpointURL :=
      if hasPrefixGo m.originUrl "http" then ep.endpoint
      else if ep.secure then "https://" ++ ep.endpoint else "http://" ++ ep.endpoint
    match parse endpointURL with
    | none => none
    | some mirrorEndpointUrl =>
      let inURL0 := u.urlString
      let inURL1 := replaceFirst inURL0 mirrorUrl.host mirrorEndpointUrl.host
      let inURL2 := replaceFirst inURL1 mirrorUrl.path mirrorEndpointUrl.path
      let inURL3 :=
        if u.scheme = "https" && !ep.secure then replaceFirst inURL2 "https:" "http:" else inURL2
      let inURL4 :=
        if u.scheme = "http" && ep.secure then replaceFirst inURL3 "http:" "https:" else inURL3
      parse inURL4

/-- The endpoint loop of RoundTrip: try each endpoint in order against the
current in.URL; a rewrite failure skips the endpoint leaving in.URL as it
was, a rewrite success assigns in.URL before dispatching; a dispatch failure
skips to the next endpoint (with in.URL left rewritten). Returns the final
value of in.URL together with the first successful response, if any. -/
def tryEndpoints {Resp : Type} (parse : String → Option GoURL) (inner : GoURL → Option Resp)
    (m : Mirror) : List MirrorEndpoint → GoURL → GoURL × Option Resp
  | [], u => (u, none)
  | ep :: rest, u =>
    match m.useMirrorEndpoint parse ep u with
    | none => tryEndpoints parse inner m rest u
    | some u1 =>
      match inner u1 with
      | some r => (u1, some r)
      | none => tryEndpoints parse inner m rest u1

/-- The mirror loop of RoundTrip: each applicable mirror gets its endpoints
tried in order; the first successful dispatch returns. in.URL mutations
survive across mirrors. -/
def roundTripLoop {Resp : Type} (parse : String → Option GoURL) (inner : GoURL → Option Resp) :
    List Mirror → GoURL → GoURL × Option Resp
  | [], u => (u, none)
  | m :: rest, u =>
    if m.isApplicableTo parse u then
      match tryEndpoints parse inner m m.mirrorEndpoints u with
      | (u1, some r) => (u1, some r)
      | (u1, none) => roundTripLoop parse inner rest u1
    else roundTripLoop parse inner rest u

/-- mirroredTransport.RoundTrip: run the mirror loop, then fall through to
the inner transport with the current in.URL (the len(t.mirrors) > 0 guard is
behaviourally redundant: an empty loop leaves in.URL untouched). -/
def roundTrip {Resp : Type} (parse : String → Option GoURL) (inner : GoURL → Option Resp)
    (mirrors : List Mirror) (u : GoURL) : GoURL × Option Resp :=
  match roundTripLoop parse inner mirrors u with
  | (u1, some r) => (u1, some r)
  | (u1, none) => (u1, inner u1)

/-- The URL handed to the inner transport on the final fall-through dispatch
of RoundTrip, or none when some mirror endpoint already produced a response
(so the fall-through dispatch never happens). -/
def roundTripFallthroughURL {Resp : Type} (parse : String → Option GoURL)
    (inner : GoURL → Option Resp) (mirrors : List Mirror) (u : GoURL) : Option GoURL :=
  match roundTripLoop parse inner mirrors u with
  | (_, some _) => none
  | (u1, none) => some u1

/-- A concrete url.Parse oracle, matching net/url.Parse on the simple URL
shapes the counterexamples use: scheme://host/path splits into its three
components; a string with no scheme separator parses as a path-only URL with
empty host, exactly as net/url.Parse does for such references. -/
def goUrlParse (s : String) : Option GoURL :=
  match breakOnAux [':', '/', '/'] s.data with
  | none => some ⟨"", "", s⟩
  | some (sch, rest) =>
    match breakOnAux ['/'] rest with
    | none => some ⟨⟨sch⟩, ⟨rest⟩, ""⟩
    | some (host, tail) => some ⟨⟨sch⟩, ⟨host⟩, ⟨'/' :: tail⟩⟩

/-! ## Image types and collector schema (api/v2alpha1)

The v2alpha1 type declarations themselves are not among the provided sources;
the enum values below are the ones worker.go and the delete package name. -/

inductive ImageType where
  | cincinnatiGraph
  | ocpRelease
  | ocpReleaseContent
  | operatorCatalog
  | operatorBundle
  | operatorRelatedImage
  | generic
  | helmImage
  | invalid
deriving DecidableEq

/-- Modelled from the spec: ImageType.IsRelease of api/v2alpha1 (declaration
not under the provided sources; the spec counts CincinnatiGraph, OCPRelease
and OCPReleaseContent as release images). -/
def ImageType.isRelease : ImageType → Bool
  | .cincinnatiGraph | .ocpRelease | .ocpReleaseContent => true
  | _ => false

/-- Modelled from the spec: ImageType.IsOperator of api/v2alpha1. -/
def ImageType.isOperator : ImageType → Bool
  | .operatorCatalog | .operatorBundle | .operatorRelatedImage => true
  | _ => false

/-- Modelled from the spec: ImageType.IsAdditionalImage of api/v2alpha1. -/
def ImageType.isAdditionalImage : ImageType → Bool
  | .generic => true
  | _ => false

/-- Modelled from the spec: ImageType.IsHelmImage of api/v2alpha1. -/
def ImageType.isHelmImage : ImageType → Bool
  | .helmImage => true
  | _ => false

structure CopyImageSchema where
  source : String
  destination : String
  origin : String
  type : ImageType
deriving DecidableEq

structure CollectorSchema where
  allImages : List CopyImageSchema
  totalReleaseImages : Nat
  totalOperatorImages : Nat
  totalAdditionalImages : Nat
  totalHelmImages : Nat
deriving DecidableEq

/-- The values of mirror.Mode that worker.go compares opts.Mode against. -/
inductive MirrorMode where
  | mirrorToDisk
  | diskToMirror
  | mirrorToMirror
deriving DecidableEq

/-! ## Batch copier (v2/internal/pkg/batch/worker.go)

The image-copy primitive Mirror.Run is an interface collaborator, modelled
as an oracle run : CopyImageSchema → Bool (true = nil error). The embedding
tracks, next to the state the Go code keeps (o.CopiedImages, errArray), the
ghost list of images for which Mirror.Run was invoked, so that the fail-fast
claims can speak about which copies were attempted. -/

structure BatchState where
  copied : List CopyImageSchema
  totalReleaseImages : Nat
  totalOperatorImages : Nat
  totalAdditionalImages : Nat
  errArray : List CopyImageSchema
  attempted : List CopyImageSchema
deriving DecidableEq

/-- The initial Batch state built by batch.New. -/
def batchInit : BatchState := ⟨[], 0, 0, 0, [], []⟩

/-- The skip branch of Worker: a CincinnatiGraph image in MirrorToDisk or
MirrorToMirror mode is tallied without invoking Mirror.Run. -/
def skipGraph (mode : MirrorMode) (img : CopyImageSchema) : Bool :=
  img.type = ImageType.cincinnatiGraph &&
    (mode = MirrorMode.mirrorToDisk || mode = MirrorMode.mirrorToMirror)

/-- The success branch of Worker: append the image to o.CopiedImages and
bump the per-type counter. -/
def bumpSuccess (s : BatchState) (img : CopyImageSchema) : BatchState :=
  match img.type with
  | .cincinnatiGraph | .ocpRelease | .ocpReleaseContent =>
    { s with totalReleaseImages := s.totalReleaseImages + 1 }
  | .generic =>
    { s with totalAdditionalImages := s.totalAdditionalImages + 1 }
  | .operatorBundle | .operatorCatalog | .operatorRelatedImage =>
    { s with totalOperatorImages := s.totalOperatorImages + 1 }
  | _ => s

/-- The image loop of Batch.Worker. Sum.inl: the loop ran to the end of the
list; Sum.inr: the loop aborted on a failing OCPRelease or OCPReleaseContent
image (the default case of the switch), recording the error and returning
immediately. -/
def workerLoop (run : CopyImageSchema → Bool) (mode : MirrorMode) :
    List CopyImageSchema → BatchState → BatchState ⊕ (BatchState × CopyImageSchema)
  | [], s => Sum.inl s
  | img :: rest, s =>
    if skipGraph mode img then
      workerLoop run mode rest
        { s with copied := s.copied ++ [img], totalReleaseImages := s.totalReleaseImages + 1 }
    else
      let s1 := { s with attempted := s.attempted ++ [img] }
      if run img then
        workerLoop run mode rest (bumpSuccess { s1 with copied := s1.copied ++ [img] } img)
      else if img.type ≠ ImageType.ocpRelease ∧ img.type ≠ ImageType.ocpReleaseContent then
        workerLoop run mode rest { s1 with errArray := s1.errArray ++ [img] }
      else
        Sum.inr ({ s1 with errArray := s1.errArray ++ [img] }, img)

/-- Modelled from the spec: saveErrors (batch package, not under the provided
sources; only its call sites in worker.go are) writes the recorded errors to
a timestamped error-log file under the logs directory and returns the file
name; the timestamp is an oracle parameter here. -/
def saveErrorsFilename (ts : String) : String :=
  "mirroring_errors_" ++ ts ++ ".txt"

/-- The outcome of Batch.Worker: the returned CollectorSchema contents are in
the BatchState; unsafeErr carries the failing image (NewUnsafeError) and
safeErr the aggregated non-fatal failure (NewSafeError). The Option String is
the error-log file name, none when saveErrors itself failed. -/
inductive WorkerOutcome where
  | unsafeErr : BatchState → CopyImageSchema → Option String → WorkerOutcome
  | safeErr : BatchState → Option String → WorkerOutcome
  | ok : BatchState → WorkerOutcome
deriving DecidableEq

/-- Batch.Worker: run the image loop from the fresh batch state; on a fatal
release failure save the error log and return UnsafeError; at loop end return
SafeError when any error was recorded (saving the log first) and the copied
list otherwise. saveOk is the oracle for whether the error-log write
succeeds, ts the timestamp oracle. -/
def worker (run : CopyImageSchema → Bool) (mode : MirrorMode) (ts : String) (saveOk : Bool)
    (cs : CollectorSchema) : WorkerOutcome :=
  match workerLoop run mode cs.allImages batchInit with
  | Sum.inr (s, img) =>
    WorkerOutcome.unsafeErr s img (if saveOk then some (saveErrorsFilename ts) else none)
  | Sum.inl s =>
    if s.errArray = [] then WorkerOutcome.ok s
    else if saveOk then WorkerOutcome.safeErr s (some (saveErrorsFilename ts))
    else WorkerOutcome.safeErr s none

/-! ## Delete pipeline (internal delete package, v2alpha1 variant) -/

structure DeleteItem where
  imageName : String
  imageReference : String
  type : ImageType
deriving DecidableEq

structure DeleteImageList where
  kind : String
  apiVersion : String
  items : List DeleteItem
deriving DecidableEq

/-- The dockerProtocol constant of the delete package. -/
def dockerProtocol : String := "docker://"

/-- The loop of DeleteImages.DeleteRegistryImages building the collector
schema handed to Batch.Worker: one entry per delete item (Origin=ImageName,
Destination=ImageReference), plus, when ForceCacheDelete is set, a second
entry whose destination has the delete destination replaced by the local
cache registry; per-type totals bucketed via the ImageType predicates. -/
def deleteRegistryImagesSchema (forceCacheDelete : Bool)
    (deleteDestination localStorageFQDN : String) (list : DeleteImageList) : CollectorSchema :=
  list.items.foldl
    (fun cs img =>
      let cs1 := { cs with allImages :=
        cs.allImages ++ [⟨"", img.imageReference, img.imageName, img.type⟩] }
      let cs2 :=
        if forceCacheDelete then
          { cs1 with allImages := cs1.allImages ++
            [⟨"", replaceAll img.imageReference deleteDestination (dockerProtocol ++ localStorageFQDN),
              img.imageName, img.type⟩] }
        else cs1
      if img.type.isRelease then
        { cs2 with totalReleaseImages := cs2.totalReleaseImages + 1 }
      else if img.type.isOperator then
        { cs2 with totalOperatorImages := cs2.totalOperatorImages + 1 }
      else if img.type.isAdditionalImage then
        { cs2 with totalAdditionalImages := cs2.totalAdditionalImages + 1 }
      else if img.type.isHelmImage then
        { cs2 with totalHelmImages := cs2.totalHelmImages + 1 }
      else cs2)
    ⟨[], 0, 0, 0, 0⟩

/-- The observable result of DeleteImages.DeleteRegistryImages: the error the
function returns (some only when Batch.Worker returned an UnsafeError, which
is passed through; a SafeError is only logged as a warning and nil is
returned), whether Batch.Worker was invoked, and its outcome when it was. -/
structure DeleteRunResult where
  returnedError : Option (BatchState × CopyImageSchema × Option String)
  workerCalled : Bool
  workerOutcome : Option WorkerOutcome
deriving DecidableEq

/-- DeleteImages.DeleteRegistryImages (v2alpha1 variant): build the schema,
invoke Batch.Worker unless generating or without a delete destination;
return the error only when it is an UnsafeError, otherwise warn and return
nil. -/
def deleteRegistryImages (run : CopyImageSchema → Bool) (mode : MirrorMode)
    (ts : String) (saveOk : Bool) (deleteGenerate forceCacheDelete : Bool)
    (deleteDestination localStorageFQDN : String) (list : DeleteImageList) : DeleteRunResult :=
  let cs := deleteRegistryImagesSchema forceCacheDelete deleteDestination localStorageFQDN list
  if !deleteGenerate && deleteDestination ≠ "" then
    match worker run mode ts saveOk cs with
    | WorkerOutcome.unsafeErr s img lg => ⟨some (s, img, lg), true, some (WorkerOutcome.unsafeErr s img lg)⟩
    | w => ⟨none, true, some w⟩
  else ⟨none, false, none⟩

/-! ## Operator catalog filter (pkg/cli/mirror/copy.go)

declcfg documents are modelled already classified (packages, channels,
bundles); the blang/semver parser is an oracle mk : String → Option SemVer,
and SemVer models release versions (prerelease tags, handled by the library
collaborator, are not modelled). -/

structure SemVer where
  major : Nat
  minor : Nat
  patch : Nat
deriving DecidableEq

/-- blang/semver Version.Compare restricted to release versions: -1, 0 or 1
by lexicographic comparison of (major, minor, patch). -/
def SemVer.compare (a b : SemVer) : Int :=
  if a.major ≠ b.major then (if a.major > b.major then 1 else -1)
  else if a.minor ≠ b.minor then (if a.minor > b.minor then 1 else -1)
  else if a.patch ≠ b.patch then (if a.patch > b.patch then 1 else -1)
  else 0

/-- A declarative-config bundle property; only the fields bundleVersion reads
are modelled: the property type and, for olm.package properties, the version
string of the JSON value. -/
structure BundleProperty where
  ptype : String
  version : String
deriving DecidableEq

structure RelatedImage where
  name : String
  image : String
deriving DecidableEq

structure Bundle where
  name : String
  package : String
  image : String
  properties : List BundleProperty
  relatedImages : List RelatedImage
deriving DecidableEq

structure ChannelEntry where
  name : String
  replaces : String
deriving DecidableEq

structure Channel where
  name : String
  package : String
  entries : List ChannelEntry
deriving DecidableEq

structure DeclPackage where
  name : String
  defaultChannel : String
deriving DecidableEq

structure DeclConfig where
  packages : List DeclPackage
  channels : List Channel
  bundles : List Bundle
deriving DecidableEq

/-- The fields of v1alpha2.IncludePackage that isPackageSelected reads. -/
structure IncludePackage where
  name : String
  minVersion : String
  maxVersion : String
deriving DecidableEq

/-- bundleVersion: the version string of the first property of type
olm.package; none models the "unable to find bundle version" error. -/
def bundleVersion (b : Bundle) : Option String :=
  (b.properties.find? (fun p => p.ptype = "olm.package")).map (fun p => p.version)

/-- The package loop of isPackageSelected, threading the accumulated
isSelected flag; .error models an early (isSelected, err) return with a
non-nil err (missing bundle version or a semver.Make failure). -/
def isPackageSelectedLoop (mk : String → Option SemVer) (bundle : Bundle) :
    List IncludePackage → Bool → Except Unit Bool
  | [], acc => Except.ok acc
  | pkg :: rest, acc =>
    if pkg.name = bundle.package then
      if pkg.minVersion ≠ "" ∨ pkg.maxVersion ≠ "" then
        match bundleVersion bundle with
        | none => Except.error ()
        | some vs =>
          match mk vs with
          | none => Except.error ()
          | some w =>
            if pkg.minVersion ≠ "" then
              match mk pkg.minVersion with
              | none => Except.error ()
              | some mn =>
                if pkg.maxVersion ≠ "" then
                  match mk pkg.maxVersion with
                  | none => Except.error ()
                  | some mx =>
                    isPackageSelectedLoop mk bundle rest
                      (if 0 ≤ w.compare mn ∧ w.compare mx ≤ 0 then true else acc)
                else
                  isPackageSelectedLoop mk bundle rest (if 0 ≤ w.compare mn then true else acc)
            else
              match mk pkg.maxVersion with
              | none => Except.error ()
              | some mx =>
                isPackageSelectedLoop mk bundle rest (if w.compare mx ≤ 0 then true else acc)
      else
        isPackageSelectedLoop mk bundle rest true
    else
      isPackageSelectedLoop mk bundle rest acc

/-- isPackageSelected: the channels argument is part of the Go signature but
never read by the body. -/
def isPackageSelected (mk : String → Option SemVer) (bundle : Bundle)
    (channels : List Channel) (packages : List IncludePackage) : Except Unit Bool :=
  isPackageSelectedLoop mk bundle packages false

/-- Modelled from the spec: the channel head is the entry that no other entry
of the channel declares it replaces (used only to state the head-related part
of the filter claim; the Go filter computes no head). -/
def isChannelHead (ch : Channel) (bundleName : String) : Bool :=
  (ch.entries.any (fun e => e.name = bundleName)) &&
  !(ch.entries.any (fun e => e.replaces = bundleName))

/-- The defaulting step of getRelatedImages: with an empty filter list, every
package of the catalog is included without version bounds. -/
def effectivePackages (cfg : DeclConfig) (packages : List IncludePackage) :
    List IncludePackage :=
  if packages = [] then cfg.packages.map (fun p => ⟨p.name, "", ""⟩) else packages

/-- The bundle loop of getRelatedImages: for each selected bundle append an
entry for the bundle image (named after its package) followed by its
relatedImages. -/
def collectBundleImages (mk : String → Option SemVer) (channels : List Channel)
    (packages : List IncludePackage) : List Bundle → Except Unit (List RelatedImage)
  | [] => Except.ok []
  | b :: rest =>
    match isPackageSelected mk b channels packages with
    | Except.error e => Except.error e
    | Except.ok sel =>
      match collectBundleImages mk channels packages rest with
      | Except.error e => Except.error e
      | Except.ok tail =>
        if sel then Except.ok (⟨b.package, b.image⟩ :: b.relatedImages ++ tail)
        else Except.ok tail

/-- The dedup loop of getRelatedImages: keep an entry only when no earlier
kept entry has the same image. -/
def dedupByImage (all : List RelatedImage) : List RelatedImage :=
  all.foldl (fun fin i => if fin.any (fun j => i.image = j.image) then fin else fin ++ [i]) []

/-- getRelatedImages (loading of the config from disk not modelled: the
declarative config arrives classified). -/
def getRelatedImages (mk : String → Option SemVer) (cfg : DeclConfig)
    (packages : List IncludePackage) : Except Unit (List RelatedImage) :=
  (collectBundleImages mk cfg.channels (effectivePackages cfg packages) cfg.bundles).map
    dedupByImage

/-! ## Image blob gatherer (archive package, GatherBlobs)

Manifests are modelled structurally; json.Unmarshal of embedded descriptor
data and the various FromManifest parsers succeed exactly when the document
has the shape the media type announces (a mismatch models the unmarshalling
error). The registry (types.ImageSource.GetManifest) is the oracle fetch;
recursion is by fuel, exhaustion returning an error, so that an ok result
means the walk completed. -/

inductive MediaT where
  | ociIndex
  | ociManifest
  | dockerList
  | dockerManifest
  | otherMedia
deriving DecidableEq

inductive Doc where
  | image : String → List String → Doc
  | index : List (String × MediaT × Option Doc) → Doc
  | mlist : List String → Doc

/-- getBlobsOfOciManifest: layer digests in order, then the config digest.
none data models json.Unmarshal(nil) failing. -/
def gbOci : Option Doc → Except Unit (List String)
  | some (Doc.image config layers) => Except.ok (layers ++ [config])
  | _ => Except.error ()

/-- getBlobsOfDockerManifest: LayerInfos digests in order, then ConfigInfo. -/
def gbDocker : Option Doc → Except Unit (List String)
  | some (Doc.image config layers) => Except.ok (layers ++ [config])
  | _ => Except.error ()

/-- The three mutually recursive walks of the gatherer, merged into one
fuel-indexed function: top dispatches on a media type as the switches of
GatherBlobs / getBlobsOfIndex / getBlobsOfManifestList do, entries walks the
descriptor list of an OCI index, listEntries walks a docker schema2 list
fetching each child manifest by digest. -/
inductive GbCall where
  | top : MediaT → Option Doc → GbCall
  | entries : List (String × MediaT × Option Doc) → GbCall
  | listEntries : List String → GbCall

def gbGo (fetch : String → Option (MediaT × Doc)) : Nat → GbCall → Except Unit (List String)
  | 0, _ => Except.error ()
  | Nat.succ n, c =>
    match c with
    | GbCall.top mt dat =>
      match mt, dat with
      | MediaT.ociManifest, d => gbOci d
      | MediaT.dockerManifest, d => gbDocker d
      | MediaT.ociIndex, some (Doc.index es) => gbGo fetch n (GbCall.entries es)
      | MediaT.ociIndex, _ => Except.error ()
      | MediaT.dockerList, some (Doc.mlist dgs) => gbGo fetch n (GbCall.listEntries dgs)
      | MediaT.dockerList, _ => Except.error ()
      | MediaT.otherMedia, _ => Except.ok []
    | GbCall.entries [] => Except.ok []
    | GbCall.entries ((dg, mt, dat) :: rest) =>
      match gbGo fetch n (GbCall.top mt dat) with
      | Except.error e => Except.error e
      | Except.ok sub =>
        match gbGo fetch n (GbCall.entries rest) with
        | Except.error e => Except.error e
        | Except.ok tail => Except.ok (dg :: sub ++ tail)
    | GbCall.listEntries [] => Except.ok []
    | GbCall.listEntries (dg :: rest) =>
      match fetch dg with
      | none => Except.error ()
      | some (mt, doc) =>
        match gbGo fetch n (GbCall.top mt (some doc)) with
        | Except.error e => Except.error e
        | Except.ok sub =>
          match gbGo fetch n (GbCall.listEntries rest) with
          | Except.error e => Except.error e
          | Except.ok tail => Except.ok (dg :: sub ++ tail)

/-- GatherBlobs on a top manifest of the given media type (the top manifest
bytes are always present; an unrecognized top media type yields the empty
blob list, as the top-level switch has no default case). -/
def gatherBlobs (fetch : String → Option (MediaT × Doc)) (fuel : Nat) (mt : MediaT)
    (d : Doc) : Except Unit (List String) :=
  gbGo fetch fuel (GbCall.top mt (some d))

/-- The digests transitively reachable from a manifest, mirroring exactly the
recursion structure of the gatherer: child digests of every index and list,
config and layer digests of every image manifest, children followed through
embedded data (OCI index) or registry fetches (docker list). -/
inductive Reach (fetch : String → Option (MediaT × Doc)) : MediaT → Doc → String → Prop where
  | ociLayer : ∀ {c : String} {layers : List String} {d : String}, d ∈ layers →
      Reach fetch MediaT.ociManifest (Doc.image c layers) d
  | ociConfig : ∀ {c : String} {layers : List String},
      Reach fetch MediaT.ociManifest (Doc.image c layers) c
  | dockerLayer : ∀ {c : String} {layers : List String} {d : String}, d ∈ layers →
      Reach fetch MediaT.dockerManifest (Doc.image c layers) d
  | dockerConfig : ∀ {c : String} {layers : List String},
      Reach fetch MediaT.dockerManifest (Doc.image c layers) c
  | indexChild : ∀ {es : List (String × MediaT × Option Doc)} {dg : String} {mt : MediaT}
      {dat : Option Doc}, (dg, mt, dat) ∈ es →
      Reach fetch MediaT.ociIndex (Doc.index es) dg
  | indexRec : ∀ {es : List (String × MediaT × Option Doc)} {dg : String} {mt : MediaT}
      {d : Doc} {x : String}, (dg, mt, some d) ∈ es → Reach fetch mt d x →
      Reach fetch MediaT.ociIndex (Doc.index es) x
  | listChild : ∀ {dgs : List String} {dg : String}, dg ∈ dgs →
      Reach fetch MediaT.dockerList (Doc.mlist dgs) dg
  | listRec : ∀ {dgs : List String} {dg : String} {mt : MediaT} {d : Doc} {x : String},
      dg ∈ dgs → fetch dg = some (mt, d) → Reach fetch mt d x →
      Reach fetch MediaT.dockerList (Doc.mlist dgs) x

/-- Reachability lifted to the three walk entry points. -/
def ReachCall (fetch : String → Option (MediaT × Doc)) : GbCall → String → Prop
  | GbCall.top mt (some d), x => Reach fetch mt d x
  | GbCall.top _ none, _ => False
  | GbCall.entries es, x => Reach fetch MediaT.ociIndex (Doc.index es) x
  | GbCall.listEntries dgs, x => Reach fetch MediaT.dockerList (Doc.mlist dgs) x

/-! ## Archive extractor (pkg/archive/unarchive.go)

The filesystem is modelled as the list of (path, mode) pairs the extractor
writes; tar entries carry typeflag, name and mode. The archive directory is
an oracle from chunk number to the entry list of that chunk (none = the
chunk file does not exist). filepath.Join / filepath.Dir are modelled on
already-clean paths (the path-cleaning of the Go library is not exercised by
the claims). -/

inductive TarTypeflag where
  | reg
  | dir
  | otherFlag
deriving DecidableEq

structure TarHeader where
  typeflag : TarTypeflag
  name : String
  mode : Nat
deriving DecidableEq

/-- Modelled from the spec: the workingDirectory constant of the archive
package (its const file is not under the provided sources; the spec names the
working-directory tree working-dir). -/
def workingDirectory : String := "working-dir"

/-- Modelled from the spec: the registry-blob path marker of the archive
package (a source constant not under the provided sources;
the spec gives the cache layout docker/registry/v2/...). -/
def cacheFileMarker : String := "docker/registry/v2"

/-- filepath.Join for clean non-empty segments. -/
def filepathJoin (a b : String) : String :=
  if a = "" then b else if b = "" then a else a ++ "/" ++ b

/-- Split a character list on a separator character. -/
def splitChar (c : Char) : List Char → List (List Char)
  | [] => [[]]
  | a :: rest =>
    let r := splitChar c rest
    if a = c then [] :: r
    else
      match r with
      | [] => [[a]]
      | x :: xs => (a :: x) :: xs

/-- Join character-list components with a separator character. -/
def joinWithChar (c : Char) : List (List Char) → List Char
  | [] => []
  | [x] => x
  | x :: xs => x ++ c :: joinWithChar c xs

/-- filepath.Dir for clean relative paths: drop the last path component. -/
def filepathDir (s : String) : String :=
  match (splitChar '/' s.data).dropLast with
  | [] => "."
  | parts => ⟨joinWithChar '/' parts⟩

/-- The per-entry behaviour of MirrorUnArchiver.Unarchive: only regular-file
entries are considered; a name containing the working-dir marker is written
under Dir(workingDir)/name, else a name containing the cache marker under
cacheDir/name, else the entry is ignored (this is where the embedded
image-set configuration falls). The created file mode is header.Mode | 0755. -/
def extractEntry (workingDir cacheDir : String) (h : TarHeader) : Option (String × Nat) :=
  if h.typeflag = TarTypeflag.reg then
    if containsSub h.name workingDirectory then
      some (filepathJoin (filepathDir workingDir) h.name, Nat.lor h.mode 0o755)
    else if containsSub h.name cacheFileMarker then
      some (filepathJoin cacheDir h.name, Nat.lor h.mode 0o755)
    else none
  else none

/-- NewArchiveExtractor: the constructor opens chunk 1 only (chunk := 1 with
a TODO to handle several chunks); a missing chunk file is the only error. -/
def newArchiveExtractor (chunks : Nat → Option (List TarHeader)) :
    Except Unit (List TarHeader) :=
  match chunks 1 with
  | none => Except.error ()
  | some es => Except.ok es

/-- MirrorUnArchiver.Unarchive over the opened chunk: the list of files
written, in entry order. -/
def unarchiveChunk (workingDir cacheDir : String) (entries : List TarHeader) :
    List (String × Nat) :=
  entries.filterMap (extractEntry workingDir cacheDir)

/-- The extractor pipeline: NewArchiveExtractor followed by Unarchive. -/
def unarchiveRun (chunks : Nat → Option (List TarHeader)) (workingDir cacheDir : String) :
    Except Unit (List (String × Nat)) :=
  (newArchiveExtractor chunks).map (unarchiveChunk workingDir cacheDir)

/-! ## Delete metadata writer (internal delete package)

WriteDeleteMetaData of the v2alpha1 variant: the document construction and
sorting are pure and modelled directly; directory creation, YAML marshalling
and the two file writes are oracles whose failures the function only logs. -/

/-- The item list of WriteDeleteMetaData (v2alpha1): one DeleteItem per input
image, ImageName from Origin, ImageReference from Destination. -/
def writeDeleteItems (images : List CopyImageSchema) : List DeleteItem :=
  images.map (fun img => ⟨img.origin, img.destination, img.type⟩)

/-- The comparison sort.SliceStable uses: ascending ImageReference; stable
merge sort reproduces the Go stable sort. -/
def deleteItemLe (a b : DeleteItem) : Bool :=
  decide (a.imageReference ≤ b.imageReference)

/-- The DeleteImageList document WriteDeleteMetaData (v2alpha1) marshals. -/
def writeDeleteMetaDataList (images : List CopyImageSchema) : DeleteImageList :=
  let items := writeDeleteItems images
  let sortedItems := items.mergeSort deleteItemLe
  ⟨"DeleteImageList", "mirror.openshift.io/v2alpha1", sortedItems⟩

/-- The failure oracles of the v2alpha1 WriteDeleteMetaData: directory
creation, the two YAML marshals and the two file writes. -/
structure WriteDeleteMetaDataEnv where
  mkdirErr : Bool
  marshalListErr : Bool
  writeListErr : Bool
  marshalDiscErr : Bool
  writeDiscErr : Bool
deriving DecidableEq

/-- The observable outcome of WriteDeleteMetaData: the returned error, the
number of o.Log.Error calls, and the document that was marshalled. -/
structure WriteDeleteMetaDataRun where
  returnedError : Option String
  loggedErrors : Nat
  list : DeleteImageList
deriving DecidableEq

/-- WriteDeleteMetaData (v2alpha1 variant): every failing step is logged via
o.Log.Error and execution continues; the function body ends in return nil. -/
def writeDeleteMetaData (env : WriteDeleteMetaDataEnv) (images : List CopyImageSchema) :
    WriteDeleteMetaDataRun :=
  let e1 : Nat := if env.mkdirErr then 1 else 0
  let e2 : Nat := e1 + (if env.marshalListErr then 1 else 0)
  let e3 : Nat := e2 + (if env.writeListErr then 1 else 0)
  let e4 : Nat := e3 + (if env.marshalDiscErr then 1 else 0)
  let e5 : Nat := e4 + (if env.writeDiscErr then 1 else 0)
  ⟨none, e5, writeDeleteMetaDataList images⟩

/-- The failure oracles of the legacy v1alpha WriteDeleteMetaData, which
additionally gathers related blobs per image (GatherBlobs errors are logged
and execution continues with whatever the gatherer returned). -/
structure WriteDeleteMetaDataV1Env where
  mkdirErr : Bool
  gatherErrs : Nat
  marshalListErr : Bool
  writeListErr : Bool
  marshalDiscErr : Bool
  writeDiscErr : Bool
deriving DecidableEq

/-- WriteDeleteMetaData (legacy v1alpha variant, vendored delete package):
the same log-and-continue policy around blob gathering, marshalling and
writing; the function body ends in return nil. Only the returned error and
the error-log count are modelled; the v1 document shape is not needed by the
claims. -/
def writeDeleteMetaDataV1 (env : WriteDeleteMetaDataV1Env) : Option String × Nat :=
  let e1 : Nat := if env.mkdirErr then 1 else 0
  let e2 : Nat := e1 + env.gatherErrs
  let e3 : Nat := e2 + (if env.marshalListErr then 1 else 0)
  let e4 : Nat := e3 + (if env.writeListErr then 1 else 0)
  let e5 : Nat := e4 + (if env.marshalDiscErr then 1 else 0)
  let e6 : Nat := e5 + (if env.writeDiscErr then 1 else 0)
  (none, e6)

/-! ## Auxiliary definitions for the statements -/

/-- Whether a Worker outcome is the fatal UnsafeError. -/
def WorkerOutcome.isUnsafe : WorkerOutcome → Bool
  | WorkerOutcome.unsafeErr _ _ _ => true
  | _ => false

/-- Whether a Worker outcome is the aggregated SafeError. -/
def WorkerOutcome.isSafeErr : WorkerOutcome → Bool
  | WorkerOutcome.safeErr _ _ => true
  | _ => false

/-- The number of recorded errors carried by a Worker outcome. -/
def WorkerOutcome.errCount : WorkerOutcome → Nat
  | WorkerOutcome.unsafeErr s _ _ => s.errArray.length
  | WorkerOutcome.safeErr s _ => s.errArray.length
  | WorkerOutcome.ok s => s.errArray.length

/-- The batch state carried by a Worker outcome. -/
def WorkerOutcome.state : WorkerOutcome → BatchState
  | WorkerOutcome.unsafeErr s _ _ => s
  | WorkerOutcome.safeErr s _ => s
  | WorkerOutcome.ok s => s

/-- The image set the related-image claim describes: the union over the
selected bundles of the bundle image and its relatedImages entries,
identified by image reference. -/
def claimImageSet (mk : String → Option SemVer) (cfg : DeclConfig)
    (packages : List IncludePackage) (s : String) : Prop :=
  ∃ b, b ∈ cfg.bundles ∧ isPackageSelected mk b cfg.channels packages = Except.ok true ∧
    (b.image = s ∨ ∃ ri, ri ∈ b.relatedImages ∧ ri.image = s)

/-- Recursion form of the dedup loop of getRelatedImages, threading the list
of already kept entries; used to reason about the foldl. -/
def dedupSeen : List RelatedImage → List RelatedImage → List RelatedImage
  | [], _ => []
  | x :: xs, seen =>
    if seen.any (fun j => x.image = j.image) then dedupSeen xs seen
    else x :: dedupSeen xs (seen ++ [x])

/-! # Theorems -/

/-! ## C1: transport fall-through -/

theorem tryEndpoints_of_all_rewrites_fail {Resp : Type} (parse : String → Option GoURL)
    (inner : GoURL → Option Resp) (m : Mirror) (eps : List MirrorEndpoint) (u : GoURL)
    (h : ∀ ep ∈ eps, ∀ v, m.useMirrorEndpoint parse ep v = none) :
    tryEndpoints parse inner m eps u = (u, none) := by
  induction eps generalizing u with
  | nil => rfl
  | cons ep rest ih =>
    have hep := h ep (List.mem_cons_self ep rest) u
    simp only [tryEndpoints, hep]
    exact ih u (fun e he v => h e (List.mem_cons_of_mem ep he) v)

theorem roundTripLoop_of_all_rewrites_fail {Resp : Type} (parse : String → Option GoURL)
    (inner : GoURL → Option Resp) (mirrors : List Mirror) (u : GoURL)
    (h : ∀ m ∈ mirrors, ∀ ep ∈ m.mirrorEndpoints, ∀ v, m.useMirrorEndpoint parse ep v = none) :
    roundTripLoop parse inner mirrors u = (u, none) := by
  induction mirrors generalizing u with
  | nil => rfl
  | cons m rest ih =>
    have hrest := fun u1 => ih u1 (fun m1 hm1 ep hep v => h m1 (List.mem_cons_of_mem m hm1) ep hep v)
    simp only [roundTripLoop]
    by_cases happ : m.isApplicableTo parse u
    · rw [if_pos happ,
        tryEndpoints_of_all_rewrites_fail parse inner m m.mirrorEndpoints u
          (fun ep hep v => h m (List.mem_cons_self m rest) ep hep v)]
      exact hrest u
    · rw [if_neg happ]
      exact hrest u

/-- C1 (amended): when, for every mirror of the table, every endpoint rewrite
fails at URL parsing (useMirrorEndpoint returns an error and leaves the
request untouched), the fall-through dispatch of RoundTrip hands the inner
transport the URL of the request as originally received. (The claim as
stated, which also allows endpoints that rewrite successfully but fail at
the transport, is refuted by the counterexample below: a completed rewrite
mutates in.URL in place and the fall-through then dispatches the rewritten
URL.) -/
theorem roundTrip_fallthrough_original_of_all_rewrites_fail {Resp : Type}
    (parse : String → Option GoURL) (inner : GoURL → Option Resp)
    (mirrors : List Mirror) (u : GoURL)
    (h : ∀ m ∈ mirrors, ∀ ep ∈ m.mirrorEndpoints, ∀ v, m.useMirrorEndpoint parse ep v = none) :
    roundTripFallthroughURL parse inner mirrors u = some u := by
  unfold roundTripFallthroughURL
  rw [roundTripLoop_of_all_rewrites_fail parse inner mirrors u h]

/-- C1 witness: a mirror table whose single endpoint never parses (the parse
oracle rejects everything), on a concrete request. -/
theorem roundTrip_fallthrough_original_witness :
    roundTripFallthroughURL (fun _ => none) (fun _ => (none : Option Unit))
      [⟨"quay.io/redhatgov", [⟨"mirror.local/redhatgov", false⟩]⟩]
      ⟨"https", "quay.io", "/v2/redhatgov/x/manifests/v1"⟩ =
      some ⟨"https", "quay.io", "/v2/redhatgov/x/manifests/v1"⟩ :=
  roundTrip_fallthrough_original_of_all_rewrites_fail (fun _ => none)
    (fun _ => (none : Option Unit))
    [⟨"quay.io/redhatgov", [⟨"mirror.local/redhatgov", false⟩]⟩]
    ⟨"https", "quay.io", "/v2/redhatgov/x/manifests/v1"⟩
    (fun m _ ep _ v => rfl)

/-- C1 counterexample: a matching mirror whose single endpoint rewrites
successfully but fails at the transport (the inner transport always errors).
Every endpoint of the mirror fails, yet the URL handed to the inner
transport on the final fall-through dispatch is the rewritten URL
http://mirror.local/v2/redhatgov/x/manifests/v1, not the original
https://quay.io/v2/redhatgov/x/manifests/v1: useMirrorEndpoint assigned
in.URL in place before the dispatch failed. -/
theorem roundTrip_fallthrough_rewritten_counterexample :
    (Mirror.isApplicableTo goUrlParse ⟨"quay.io/redhatgov", [⟨"mirror.local/redhatgov", false⟩]⟩
      ⟨"https", "quay.io", "/v2/redhatgov/x/manifests/v1"⟩ = true)
    ∧ (roundTripFallthroughURL goUrlParse (fun _ => (none : Option Unit))
        [⟨"quay.io/redhatgov", [⟨"mirror.local/redhatgov", false⟩]⟩]
        ⟨"https", "quay.io", "/v2/redhatgov/x/manifests/v1"⟩ =
        some ⟨"http", "mirror.local", "/v2/redhatgov/x/manifests/v1"⟩)
    ∧ (⟨"http", "mirror.local", "/v2/redhatgov/x/manifests/v1"⟩ : GoURL) ≠
        ⟨"https", "quay.io", "/v2/redhatgov/x/manifests/v1"⟩ := by
  refine ⟨by decide, by decide, by decide⟩

/-! ## Worker lemmas shared by the batch claims -/

theorem bumpSuccess_errArray (s : BatchState) (img : CopyImageSchema) :
    (bumpSuccess s img).errArray = s.errArray := by
  rcases img with ⟨src, dst, org, t⟩
  cases t <;> rfl

theorem bumpSuccess_copied (s : BatchState) (img : CopyImageSchema) :
    (bumpSuccess s img).copied = s.copied := by
  rcases img with ⟨src, dst, org, t⟩
  cases t <;> rfl

theorem bumpSuccess_attempted (s : BatchState) (img : CopyImageSchema) :
    (bumpSuccess s img).attempted = s.attempted := by
  rcases img with ⟨src, dst, org, t⟩
  cases t <;> rfl

theorem workerLoop_append (run : CopyImageSchema → Bool) (mode : MirrorMode)
    (l1 l2 : List CopyImageSchema) (s : BatchState) :
    workerLoop run mode (l1 ++ l2) s =
      match workerLoop run mode l1 s with
      | Sum.inl s1 => workerLoop run mode l2 s1
      | Sum.inr r => Sum.inr r := by
  induction l1 generalizing s with
  | nil => rfl
  | cons img rest ih =>
    simp only [List.cons_append, workerLoop]
    by_cases hskip : skipGraph mode img = true
    · simp only [hskip, if_true]
      exact ih _
    · simp only [Bool.not_eq_true] at hskip
      simp only [hskip, Bool.false_eq_true, if_false]
      by_cases hrun : run img = true
      · simp only [hrun, if_true]
        exact ih _
      · simp only [Bool.not_eq_true] at hrun
        simp only [hrun, Bool.false_eq_true, if_false]
        by_cases htype : img.type ≠ ImageType.ocpRelease ∧ img.type ≠ ImageType.ocpReleaseContent
        · simp only [if_pos htype]
          exact ih _
        · simp only [if_neg htype]

theorem workerLoop_attempted_mono (run : CopyImageSchema → Bool) (mode : MirrorMode)
    (l : List CopyImageSchema) (s0 : BatchState) :
    (∀ s1, workerLoop run mode l s0 = Sum.inl s1 →
      ∀ x ∈ s1.attempted, x ∈ s0.attempted ∨ x ∈ l)
    ∧ (∀ s1 img, workerLoop run mode l s0 = Sum.inr (s1, img) →
      ∀ x ∈ s1.attempted, x ∈ s0.attempted ∨ x ∈ l) := by
  induction l generalizing s0 with
  | nil =>
    constructor
    · intro s1 h x hx
      cases h
      exact Or.inl hx
    · intro s1 img h
      cases h
  | cons img rest ih =>
    have step : ∀ s2 : BatchState, (∀ x ∈ s2.attempted, x ∈ s0.attempted ∨ x = img) →
        (∀ s1, workerLoop run mode rest s2 = Sum.inl s1 →
          ∀ x ∈ s1.attempted, x ∈ s0.attempted ∨ x ∈ img :: rest)
        ∧ (∀ s1 i, workerLoop run mode rest s2 = Sum.inr (s1, i) →
          ∀ x ∈ s1.attempted, x ∈ s0.attempted ∨ x ∈ img :: rest) := by
      intro s2 hs2
      constructor
      · intro s1 h x hx
        rcases (ih s2).1 s1 h x hx with h0 | h0
        · rcases hs2 x h0 with h1 | h1
          · exact Or.inl h1
          · exact Or.inr (h1 ▸ List.mem_cons_self img rest)
        · exact Or.inr (List.mem_cons_of_mem img h0)
      · intro s1 i h x hx
        rcases (ih s2).2 s1 i h x hx with h0 | h0
        · rcases hs2 x h0 with h1 | h1
          · exact Or.inl h1
          · exact Or.inr (h1 ▸ List.mem_cons_self img rest)
        · exact Or.inr (List.mem_cons_of_mem img h0)
    constructor
    · intro s1 h
      simp only [workerLoop] at h
      by_cases hskip : skipGraph mode img = true
      · simp only [hskip, if_true] at h
        refine (step _ ?_).1 s1 h
        intro x hx
        exact Or.inl hx
      · simp only [Bool.not_eq_true] at hskip
        simp only [hskip, Bool.false_eq_true, if_false] at h
        by_cases hrun : run img = true
        · simp only [hrun, if_true] at h
          refine (step _ ?_).1 s1 h
          intro x hx
          rw [bumpSuccess_attempted] at hx
          simp only [List.mem_append, List.mem_singleton] at hx
          exact hx
        · simp only [Bool.not_eq_true] at hrun
          simp only [hrun, Bool.false_eq_true, if_false] at h
          by_cases htype : img.type ≠ ImageType.ocpRelease ∧ img.type ≠ ImageType.ocpReleaseContent
          · simp only [if_pos htype] at h
            refine (step _ ?_).1 s1 h
            intro x hx
            simp only [List.mem_append, List.mem_singleton] at hx
            exact hx
          · simp only [if_neg htype] at h
            cases h
    · intro s1 i h
      simp only [workerLoop] at h
      by_cases hskip : skipGraph mode img = true
      · simp only [hskip, if_true] at h
        refine (step _ ?_).2 s1 i h
        intro x hx
        exact Or.inl hx
      · simp only [Bool.not_eq_true] at hskip
        simp only [hskip, Bool.false_eq_true, if_false] at h
        by_cases hrun : run img = true
        · simp only [hrun, if_true] at h
          refine (step _ ?_).2 s1 i h
          intro x hx
          rw [bumpSuccess_attempted] at hx
          simp only [List.mem_append, List.mem_singleton] at hx
          exact hx
        · simp only [Bool.not_eq_true] at hrun
          simp only [hrun, Bool.false_eq_true, if_false] at h
          by_cases htype : img.type ≠ ImageType.ocpRelease ∧ img.type ≠ ImageType.ocpReleaseContent
          · simp only [if_pos htype] at h
            refine (step _ ?_).2 s1 i h
            intro x hx
            simp only [List.mem_append, List.mem_singleton] at hx
            exact hx
          · simp only [if_neg htype] at h
            cases h
            intro x hx
            simp only [List.mem_append, List.mem_singleton] at hx
            rcases hx with hx | hx
            · exact Or.inl hx
            · exact Or.inr (hx ▸ List.mem_cons_self img rest)

/-! ## C2: fail-fast on release copies, fail-safe otherwise -/

/-- C2 (amended): in Batch.Worker, when the loop reaches image i (the prefix
before it ran to completion with state s) and the copy of image i fails:
if i is of type OCPRelease or OCPReleaseContent, the error is recorded and
Worker returns an UnsafeError at once, no copy being attempted for any image
after position i (every attempted copy comes from the prefix or is i
itself); for an image of any other type, the error is recorded and the loop
proceeds with the images after position i. (The claim as stated reads
"release type"; CincinnatiGraph, which the Worker itself tallies among the
release images, is refuted by the counterexample below: its failures fall
into the fail-safe branch.) -/
theorem worker_release_failfast_other_failsafe
    (run : CopyImageSchema → Bool) (mode : MirrorMode) (ts : String) (saveOk : Bool)
    (cs : CollectorSchema) (pre post : List CopyImageSchema) (img : CopyImageSchema)
    (s : BatchState)
    (hcs : cs.allImages = pre ++ img :: post)
    (hpre : workerLoop run mode pre batchInit = Sum.inl s)
    (hskip : skipGraph mode img = false)
    (hfail : run img = false) :
    ((img.type = ImageType.ocpRelease ∨ img.type = ImageType.ocpReleaseContent) →
      worker run mode ts saveOk cs =
        WorkerOutcome.unsafeErr
          { s with attempted := s.attempted ++ [img], errArray := s.errArray ++ [img] } img
          (if saveOk then some (saveErrorsFilename ts) else none)
      ∧ (∀ x ∈ s.attempted ++ [img], x ∈ pre ∨ x = img))
    ∧ ((img.type ≠ ImageType.ocpRelease ∧ img.type ≠ ImageType.ocpReleaseContent) →
      workerLoop run mode (pre ++ img :: post) batchInit =
        workerLoop run mode post
          { s with attempted := s.attempted ++ [img], errArray := s.errArray ++ [img] }) := by
  have hstep : workerLoop run mode (pre ++ img :: post) batchInit =
      workerLoop run mode (img :: post) s := by
    rw [workerLoop_append, hpre]
  constructor
  · intro htype
    have htype1 : ¬ (img.type ≠ ImageType.ocpRelease ∧ img.type ≠ ImageType.ocpReleaseContent) := by
      rcases htype with h | h
      · intro hc
        exact hc.1 h
      · intro hc
        exact hc.2 h
    have hloop : workerLoop run mode (pre ++ img :: post) batchInit =
        Sum.inr ({ s with attempted := s.attempted ++ [img], errArray := s.errArray ++ [img] }, img) := by
      rw [hstep]
      simp only [workerLoop, hskip, Bool.false_eq_true, if_false, hfail, if_neg htype1]
    constructor
    · unfold worker
      rw [hcs, hloop]
    · intro x hx
      simp only [List.mem_append, List.mem_singleton] at hx
      rcases hx with hx | hx
      · rcases (workerLoop_attempted_mono run mode pre batchInit).1 s hpre x hx with h0 | h0
        · simp [batchInit] at h0
        · exact Or.inl h0
      · exact Or.inr hx
  · intro htype
    rw [hstep]
    simp only [workerLoop, hskip, Bool.false_eq_true, if_false, hfail, if_pos htype]

/-- C2 witness: a failing OCPRelease image aborts the batch with an
UnsafeError recording it, before the (would-be) second image. -/
theorem worker_release_failfast_witness :
    worker (fun _ => false) MirrorMode.diskToMirror "t" true
      ⟨[⟨"s1", "d1", "o1", ImageType.ocpRelease⟩, ⟨"s2", "d2", "o2", ImageType.generic⟩],
        1, 0, 1, 0⟩ =
      WorkerOutcome.unsafeErr
        ⟨[], 0, 0, 0, [⟨"s1", "d1", "o1", ImageType.ocpRelease⟩],
          [⟨"s1", "d1", "o1", ImageType.ocpRelease⟩]⟩
        ⟨"s1", "d1", "o1", ImageType.ocpRelease⟩ (some "mirroring_errors_t.txt") :=
  ((worker_release_failfast_other_failsafe (fun _ => false) MirrorMode.diskToMirror "t" true
      ⟨[⟨"s1", "d1", "o1", ImageType.ocpRelease⟩, ⟨"s2", "d2", "o2", ImageType.generic⟩],
        1, 0, 1, 0⟩
      [] [⟨"s2", "d2", "o2", ImageType.generic⟩] ⟨"s1", "d1", "o1", ImageType.ocpRelease⟩
      batchInit rfl rfl rfl rfl).1 (Or.inl rfl)).1

/-- C2 counterexample: a CincinnatiGraph image is a release-type image (the
Worker itself counts it in TotalReleaseImages, and the v2alpha1 IsRelease
predicate includes it), yet when its copy fails in DiskToMirror mode the
Worker does not return an UnsafeError and does not stop: it records the
error, proceeds to the next image (both end up attempted), and returns the
aggregated SafeError. -/
theorem worker_graph_failure_failsafe_counterexample :
    ImageType.isRelease ImageType.cincinnatiGraph = true
    ∧ WorkerOutcome.isUnsafe
        (worker (fun _ => false) MirrorMode.diskToMirror "t" true
          ⟨[⟨"s1", "d1", "o1", ImageType.cincinnatiGraph⟩, ⟨"s2", "d2", "o2", ImageType.generic⟩],
            1, 0, 1, 0⟩) = false
    ∧ worker (fun _ => false) MirrorMode.diskToMirror "t" true
        ⟨[⟨"s1", "d1", "o1", ImageType.cincinnatiGraph⟩, ⟨"s2", "d2", "o2", ImageType.generic⟩],
          1, 0, 1, 0⟩ =
      WorkerOutcome.safeErr
        ⟨[], 0, 0, 0,
          [⟨"s1", "d1", "o1", ImageType.cincinnatiGraph⟩, ⟨"s2", "d2", "o2", ImageType.generic⟩],
          [⟨"s1", "d1", "o1", ImageType.cincinnatiGraph⟩, ⟨"s2", "d2", "o2", ImageType.generic⟩]⟩
        (some "mirroring_errors_t.txt") := by
  refine ⟨rfl, by decide, by decide⟩

/-! ## C7: batch end behaviour -/

/-- C7: when Batch.Worker reaches the end of the image list (the loop
returns inl s) and the error-log write succeeds: if at least one non-fatal
error was recorded, the recorded errors are saved to the timestamped
error-log file and a SafeError carrying that file name is returned; if no
error was recorded, the populated copied-image state is returned with no
error. -/
theorem worker_batch_end (run : CopyImageSchema → Bool) (mode : MirrorMode) (ts : String)
    (cs : CollectorSchema) (s : BatchState)
    (hdone : workerLoop run mode cs.allImages batchInit = Sum.inl s) :
    (s.errArray ≠ [] →
      worker run mode ts true cs = WorkerOutcome.safeErr s (some (saveErrorsFilename ts)))
    ∧ (s.errArray = [] → worker run mode ts true cs = WorkerOutcome.ok s) := by
  constructor
  · intro herr
    unfold worker
    rw [hdone]
    simp [if_neg herr]
  · intro herr
    unfold worker
    rw [hdone]
    simp only [if_pos herr]

/-- C7 witness: a two-image batch with one failing generic image ends in a
SafeError carrying the timestamped log file; the same batch with an
always-succeeding copier ends with the populated copied list and no error. -/
theorem worker_batch_end_witness :
    worker (fun i => i.origin ≠ "o2") MirrorMode.diskToMirror "20240101_120000" true
      ⟨[⟨"s1", "d1", "o1", ImageType.generic⟩, ⟨"s2", "d2", "o2", ImageType.generic⟩],
        0, 0, 2, 0⟩ =
      WorkerOutcome.safeErr
        ⟨[⟨"s1", "d1", "o1", ImageType.generic⟩], 0, 0, 1,
          [⟨"s2", "d2", "o2", ImageType.generic⟩],
          [⟨"s1", "d1", "o1", ImageType.generic⟩, ⟨"s2", "d2", "o2", ImageType.generic⟩]⟩
        (some "mirroring_errors_20240101_120000.txt")
    ∧ worker (fun _ => true) MirrorMode.diskToMirror "20240101_120000" true
        ⟨[⟨"s1", "d1", "o1", ImageType.generic⟩], 0, 0, 1, 0⟩ =
      WorkerOutcome.ok
        ⟨[⟨"s1", "d1", "o1", ImageType.generic⟩], 0, 0, 1, [],
          [⟨"s1", "d1", "o1", ImageType.generic⟩]⟩ :=
  ⟨(worker_batch_end (fun i => i.origin ≠ "o2") MirrorMode.diskToMirror "20240101_120000"
      ⟨[⟨"s1", "d1", "o1", ImageType.generic⟩, ⟨"s2", "d2", "o2", ImageType.generic⟩],
        0, 0, 2, 0⟩
      ⟨[⟨"s1", "d1", "o1", ImageType.generic⟩], 0, 0, 1,
        [⟨"s2", "d2", "o2", ImageType.generic⟩],
        [⟨"s1", "d1", "o1", ImageType.generic⟩, ⟨"s2", "d2", "o2", ImageType.generic⟩]⟩
      (by decide)).1 (by decide),
   (worker_batch_end (fun _ => true) MirrorMode.diskToMirror "20240101_120000"
      ⟨[⟨"s1", "d1", "o1", ImageType.generic⟩], 0, 0, 1, 0⟩
      ⟨[⟨"s1", "d1", "o1", ImageType.generic⟩], 0, 0, 1, [],
        [⟨"s1", "d1", "o1", ImageType.generic⟩]⟩
      (by decide)).2 rfl⟩

theorem workerLoop_no_fatal (run : CopyImageSchema → Bool) (mode : MirrorMode)
    (l : List CopyImageSchema) (s0 : BatchState)
    (hskip : ∀ img ∈ l, skipGraph mode img = false)
    (hnofatal : ∀ img ∈ l,
      img.type ≠ ImageType.ocpRelease ∧ img.type ≠ ImageType.ocpReleaseContent) :
    ∃ s1, workerLoop run mode l s0 = Sum.inl s1
      ∧ s1.errArray = s0.errArray ++ l.filter (fun i => !(run i))
      ∧ s1.copied = s0.copied ++ l.filter (fun i => run i)
      ∧ s1.attempted = s0.attempted ++ l := by
  induction l generalizing s0 with
  | nil => exact ⟨s0, rfl, by simp, by simp, by simp⟩
  | cons img rest ih =>
    have hskipImg := hskip img (List.mem_cons_self img rest)
    have hskipRest := fun i hi => hskip i (List.mem_cons_of_mem img hi)
    have hfatalImg := hnofatal img (List.mem_cons_self img rest)
    have hfatalRest := fun i hi => hnofatal i (List.mem_cons_of_mem img hi)
    simp only [workerLoop, hskipImg, Bool.false_eq_true, if_false]
    by_cases hrun : run img = true
    · simp only [hrun, if_true]
      obtain ⟨s1, heq, herr, hcop, hatt⟩ := ih _ hskipRest hfatalRest
      refine ⟨s1, heq, ?_, ?_, ?_⟩
      · rw [herr, bumpSuccess_errArray]
        simp [List.filter_cons, hrun]
      · rw [hcop, bumpSuccess_copied]
        simp [List.filter_cons, hrun]
      · rw [hatt, bumpSuccess_attempted]
        simp
    · simp only [Bool.not_eq_true] at hrun
      simp only [hrun, Bool.false_eq_true, if_false, if_pos hfatalImg]
      obtain ⟨s1, heq, herr, hcop, hatt⟩ := ih _ hskipRest hfatalRest
      refine ⟨s1, heq, ?_, ?_, ?_⟩
      · rw [herr]
        simp [List.filter_cons, hrun]
      · rw [hcop]
        simp [List.filter_cons, hrun]
      · rw [hatt]
        simp

/-! ## C8: delete-execute error reporting -/

/-- C8 (amended): for a delete-execute run (not generating, with a delete
destination, without forced cache deletion) over N delete items, none of a
fatal release type and none skipped, where at least one deletion fails:
Batch.Worker ends in the SafeError whose recorded errors are exactly the K
failing images (and the N-K successes are the images appended to the copied
list, all N having been attempted); DeleteImages.DeleteRegistryImages,
however, only logs that SafeError as a warning and returns nil, so the
delete pipeline itself reports no error. (The claim as stated, that the
pipeline returns the SafeError, is refuted by the counterexample below.) -/
theorem deleteRegistryImages_safeerror_swallowed
    (run : CopyImageSchema → Bool) (mode : MirrorMode) (ts : String)
    (dest fqdn : String) (list : DeleteImageList)
    (hdest : dest ≠ "")
    (hskip : ∀ img ∈ (deleteRegistryImagesSchema false dest fqdn list).allImages,
      skipGraph mode img = false)
    (hnofatal : ∀ img ∈ (deleteRegistryImagesSchema false dest fqdn list).allImages,
      img.type ≠ ImageType.ocpRelease ∧ img.type ≠ ImageType.ocpReleaseContent)
    (hK : (deleteRegistryImagesSchema false dest fqdn list).allImages.filter
      (fun i => !(run i)) ≠ []) :
    (worker run mode ts true (deleteRegistryImagesSchema false dest fqdn list)).isSafeErr = true
    ∧ (worker run mode ts true (deleteRegistryImagesSchema false dest fqdn list)).state.errArray =
        (deleteRegistryImagesSchema false dest fqdn list).allImages.filter (fun i => !(run i))
    ∧ (worker run mode ts true (deleteRegistryImagesSchema false dest fqdn list)).state.copied =
        (deleteRegistryImagesSchema false dest fqdn list).allImages.filter (fun i => run i)
    ∧ (worker run mode ts true (deleteRegistryImagesSchema false dest fqdn list)).state.attempted =
        (deleteRegistryImagesSchema false dest fqdn list).allImages
    ∧ (worker run mode ts true (deleteRegistryImagesSchema false dest fqdn list)).state.copied.length
        + (worker run mode ts true
            (deleteRegistryImagesSchema false dest fqdn list)).state.errArray.length
        = (deleteRegistryImagesSchema false dest fqdn list).allImages.length
    ∧ (deleteRegistryImages run mode ts true false false dest fqdn list).returnedError = none
    ∧ (deleteRegistryImages run mode ts true false false dest fqdn list).workerOutcome =
        some (worker run mode ts true (deleteRegistryImagesSchema false dest fqdn list)) := by
  obtain ⟨s1, heq, herr, hcop, hatt⟩ :=
    workerLoop_no_fatal run mode (deleteRegistryImagesSchema false dest fqdn list).allImages
      batchInit hskip hnofatal
  have herr1 : s1.errArray =
      (deleteRegistryImagesSchema false dest fqdn list).allImages.filter (fun i => !(run i)) := by
    rw [herr]
    simp [batchInit]
  have hcop1 : s1.copied =
      (deleteRegistryImagesSchema false dest fqdn list).allImages.filter (fun i => run i) := by
    rw [hcop]
    simp [batchInit]
  have hatt1 : s1.attempted = (deleteRegistryImagesSchema false dest fqdn list).allImages := by
    rw [hatt]
    simp [batchInit]
  have hw : worker run mode ts true (deleteRegistryImagesSchema false dest fqdn list) =
      WorkerOutcome.safeErr s1 (some (saveErrorsFilename ts)) := by
    unfold worker
    rw [heq]
    have hne : ¬ s1.errArray = [] := by
      rw [herr1]
      exact hK
    simp [hne]
  have hd : deleteRegistryImages run mode ts true false false dest fqdn list =
      ⟨none, true, some (WorkerOutcome.safeErr s1 (some (saveErrorsFilename ts)))⟩ := by
    simp [deleteRegistryImages, hw, hdest]
  refine ⟨?_, ?_, ?_, ?_, ?_, ?_, ?_⟩
  · rw [hw]
    rfl
  · rw [hw]
    exact herr1
  · rw [hw]
    exact hcop1
  · rw [hw]
    exact hatt1
  · rw [hw]
    show s1.copied.length + s1.errArray.length = _
    rw [herr1, hcop1]
    exact (@List.length_eq_length_filter_add CopyImageSchema
      ((deleteRegistryImagesSchema false dest fqdn list).allImages) run).symm
  · rw [hd]
  · rw [hd, hw]

/-- C8 witness: a two-item delete run where exactly one deletion fails ends
with the Worker in SafeError while DeleteRegistryImages returns nil. -/
theorem deleteRegistryImages_safeerror_swallowed_witness :
    (worker (fun i => i.destination ≠ "docker://reg/b") MirrorMode.diskToMirror "t" true
      (deleteRegistryImagesSchema false "docker://reg" "lh"
        ⟨"DeleteImageList", "mirror.openshift.io/v2alpha1",
          [⟨"imgA", "docker://reg/a", ImageType.generic⟩,
           ⟨"imgB", "docker://reg/b", ImageType.generic⟩]⟩)).isSafeErr = true
    ∧ (deleteRegistryImages (fun i => i.destination ≠ "docker://reg/b") MirrorMode.diskToMirror
        "t" true false false "docker://reg" "lh"
        ⟨"DeleteImageList", "mirror.openshift.io/v2alpha1",
          [⟨"imgA", "docker://reg/a", ImageType.generic⟩,
           ⟨"imgB", "docker://reg/b", ImageType.generic⟩]⟩).returnedError = none :=
  ⟨(deleteRegistryImages_safeerror_swallowed (fun i => i.destination ≠ "docker://reg/b")
      MirrorMode.diskToMirror "t" "docker://reg" "lh"
      ⟨"DeleteImageList", "mirror.openshift.io/v2alpha1",
        [⟨"imgA", "docker://reg/a", ImageType.generic⟩,
         ⟨"imgB", "docker://reg/b", ImageType.generic⟩]⟩
      (by decide) (by decide) (by decide) (by decide)).1,
   (deleteRegistryImages_safeerror_swallowed (fun i => i.destination ≠ "docker://reg/b")
      MirrorMode.diskToMirror "t" "docker://reg" "lh"
      ⟨"DeleteImageList", "mirror.openshift.io/v2alpha1",
        [⟨"imgA", "docker://reg/a", ImageType.generic⟩,
         ⟨"imgB", "docker://reg/b", ImageType.generic⟩]⟩
      (by decide) (by decide) (by decide) (by decide)).2.2.2.2.2.1⟩

/-- C8 counterexample: a delete-execute run over two images with exactly one
failing deletion. Batch.Worker returns the SafeError with exactly one
recorded error, but DeleteRegistryImages returns nil, not the SafeError the
claim promises. -/
theorem deleteRegistryImages_returns_nil_counterexample :
    ((deleteRegistryImages (fun i => i.destination ≠ "docker://reg/b") MirrorMode.diskToMirror
        "t" true false false "docker://reg" "lh"
        ⟨"DeleteImageList", "mirror.openshift.io/v2alpha1",
          [⟨"imgA", "docker://reg/a", ImageType.generic⟩,
           ⟨"imgB", "docker://reg/b", ImageType.generic⟩]⟩).returnedError = none)
    ∧ ((deleteRegistryImages (fun i => i.destination ≠ "docker://reg/b") MirrorMode.diskToMirror
        "t" true false false "docker://reg" "lh"
        ⟨"DeleteImageList", "mirror.openshift.io/v2alpha1",
          [⟨"imgA", "docker://reg/a", ImageType.generic⟩,
           ⟨"imgB", "docker://reg/b", ImageType.generic⟩]⟩).workerOutcome.map
        WorkerOutcome.isSafeErr = some true)
    ∧ ((deleteRegistryImages (fun i => i.destination ≠ "docker://reg/b") MirrorMode.diskToMirror
        "t" true false false "docker://reg" "lh"
        ⟨"DeleteImageList", "mirror.openshift.io/v2alpha1",
          [⟨"imgA", "docker://reg/a", ImageType.generic⟩,
           ⟨"imgB", "docker://reg/b", ImageType.generic⟩]⟩).workerOutcome.map
        WorkerOutcome.errCount = some 1) := by
  refine ⟨by decide, by decide, by decide⟩

/-! ## C3: version-range selection semantics -/

/-- C3 (amended): for a bundle of a named package and a single matching
package filter, isPackageSelected selects the bundle by its olm.package
semantic version w as follows: with only MinVersion=v set, iff w is at least
v; with only MaxVersion set, iff w is at most it; with both set, iff w lies
in the inclusive range; and with neither bound set, every bundle of the
package is selected - the function reads neither the channels nor any
channel head, so headship and Full play no role (the head-only part of the
claim as stated is refuted by the counterexample below). -/
theorem isPackageSelected_version_range (mk : String → Option SemVer) (bundle : Bundle)
    (channels : List Channel) (pkg : IncludePackage) (w mn mx : SemVer)
    (hname : pkg.name = bundle.package)
    (hver : pkg.minVersion ≠ "" ∨ pkg.maxVersion ≠ "" →
      (bundleVersion bundle).bind mk = some w)
    (hmn : pkg.minVersion ≠ "" → mk pkg.minVersion = some mn)
    (hmx : pkg.maxVersion ≠ "" → mk pkg.maxVersion = some mx) :
    isPackageSelected mk bundle channels [pkg] = Except.ok
      (if pkg.minVersion ≠ "" ∧ pkg.maxVersion ≠ "" then
        decide (0 ≤ w.compare mn ∧ w.compare mx ≤ 0)
      else if pkg.minVersion ≠ "" then decide (0 ≤ w.compare mn)
      else if pkg.maxVersion ≠ "" then decide (w.compare mx ≤ 0)
      else true) := by
  unfold isPackageSelected isPackageSelectedLoop
  rw [if_pos hname]
  by_cases hmin : pkg.minVersion ≠ ""
  · have hbound : pkg.minVersion ≠ "" ∨ pkg.maxVersion ≠ "" := Or.inl hmin
    obtain ⟨vs, hvs, hmkvs⟩ : ∃ vs, bundleVersion bundle = some vs ∧ mk vs = some w := by
      have h := hver hbound
      cases hbv : bundleVersion bundle with
      | none => rw [hbv] at h; cases h
      | some vs => rw [hbv] at h; exact ⟨vs, rfl, h⟩
    rw [if_pos hbound]
    simp only [hvs, hmkvs]
    rw [if_pos hmin]
    simp only [hmn hmin]
    by_cases hmax : pkg.maxVersion ≠ ""
    · rw [if_pos hmax]
      simp only [hmx hmax]
      unfold isPackageSelectedLoop
      rw [if_pos (And.intro hmin hmax)]
      by_cases hc : 0 ≤ w.compare mn ∧ w.compare mx ≤ 0
      · rw [if_pos hc, decide_eq_true hc]
      · rw [if_neg hc, decide_eq_false hc]
    · rw [if_neg hmax]
      unfold isPackageSelectedLoop
      have hnotboth : ¬ (pkg.minVersion ≠ "" ∧ pkg.maxVersion ≠ "") := fun hc => hmax hc.2
      rw [if_neg hnotboth, if_pos hmin]
      by_cases hc : 0 ≤ w.compare mn
      · rw [if_pos hc, decide_eq_true hc]
      · rw [if_neg hc, decide_eq_false hc]
  · by_cases hmax : pkg.maxVersion ≠ ""
    · have hbound : pkg.minVersion ≠ "" ∨ pkg.maxVersion ≠ "" := Or.inr hmax
      obtain ⟨vs, hvs, hmkvs⟩ : ∃ vs, bundleVersion bundle = some vs ∧ mk vs = some w := by
        have h := hver hbound
        cases hbv : bundleVersion bundle with
        | none => rw [hbv] at h; cases h
        | some vs => rw [hbv] at h; exact ⟨vs, rfl, h⟩
      rw [if_pos hbound]
      simp only [hvs, hmkvs]
      rw [if_neg hmin]
      simp only [hmx hmax]
      unfold isPackageSelectedLoop
      have hnotboth : ¬ (pkg.minVersion ≠ "" ∧ pkg.maxVersion ≠ "") := fun hc => hmin hc.1
      rw [if_neg hnotboth, if_neg hmin, if_pos hmax]
      by_cases hc : w.compare mx ≤ 0
      · rw [if_pos hc, decide_eq_true hc]
      · rw [if_neg hc, decide_eq_false hc]
    · have hbound : ¬ (pkg.minVersion ≠ "" ∨ pkg.maxVersion ≠ "") := by
        intro hc
        rcases hc with hc | hc
        · exact hmin hc
        · exact hmax hc
      rw [if_neg hbound]
      unfold isPackageSelectedLoop
      have hnotboth : ¬ (pkg.minVersion ≠ "" ∧ pkg.maxVersion ≠ "") := fun hc => hmin hc.1
      rw [if_neg hnotboth, if_neg hmin, if_neg hmax]

/-- C3 witness: a bundle at version 1.5.0 against the inclusive range
[1.0.0, 2.0.0] is selected. -/
theorem isPackageSelected_version_range_witness :
    isPackageSelected
      (fun s => if s = "1.0.0" then some ⟨1, 0, 0⟩
        else if s = "2.0.0" then some ⟨2, 0, 0⟩
        else if s = "1.5.0" then some ⟨1, 5, 0⟩ else none)
      ⟨"foo.v1.5.0", "foo", "img", [⟨"olm.package", "1.5.0"⟩], []⟩
      [] [⟨"foo", "1.0.0", "2.0.0"⟩] = Except.ok true :=
  (isPackageSelected_version_range
      (fun s => if s = "1.0.0" then some ⟨1, 0, 0⟩
        else if s = "2.0.0" then some ⟨2, 0, 0⟩
        else if s = "1.5.0" then some ⟨1, 5, 0⟩ else none)
      ⟨"foo.v1.5.0", "foo", "img", [⟨"olm.package", "1.5.0"⟩], []⟩
      [] ⟨"foo", "1.0.0", "2.0.0"⟩ ⟨1, 5, 0⟩ ⟨1, 0, 0⟩ ⟨2, 0, 0⟩
      rfl (fun _ => rfl) (fun _ => rfl) (fun _ => rfl)).trans rfl

/-- C3 counterexample: with neither bound set the filter selects every
bundle of the package, not only the channel head: bundle foo.v1 is selected
although the channel head of its only channel is foo.v2 (which replaces
foo.v1), no Full flag being involved - isPackageSelected never reads the
channels at all. -/
theorem isPackageSelected_nonhead_selected_counterexample :
    isPackageSelected (fun _ => none)
      ⟨"foo.v1", "foo", "img1", [⟨"olm.package", "1.0.0"⟩], []⟩
      [⟨"stable", "foo", [⟨"foo.v1", ""⟩, ⟨"foo.v2", "foo.v1"⟩]⟩]
      [⟨"foo", "", ""⟩] = Except.ok true
    ∧ isChannelHead ⟨"stable", "foo", [⟨"foo.v1", ""⟩, ⟨"foo.v2", "foo.v1"⟩]⟩ "foo.v1" = false
    ∧ isChannelHead ⟨"stable", "foo", [⟨"foo.v1", ""⟩, ⟨"foo.v2", "foo.v1"⟩]⟩ "foo.v2" = true := by
  refine ⟨rfl, by decide, by decide⟩

/-! ## C9: related-image deduplication -/

theorem dedupByImage_eq_dedupSeen (l : List RelatedImage) :
    ∀ acc : List RelatedImage,
      l.foldl (fun fin i => if fin.any (fun j => i.image = j.image) then fin else fin ++ [i]) acc
        = acc ++ dedupSeen l acc := by
  induction l with
  | nil => intro acc; simp [dedupSeen]
  | cons x xs ih =>
    intro acc
    simp only [List.foldl_cons, dedupSeen]
    by_cases hx : acc.any (fun j => x.image = j.image) = true
    · rw [if_pos hx, if_pos hx]
      exact ih acc
    · simp only [Bool.not_eq_true] at hx
      rw [if_neg (by simp [hx]), if_neg (by simp [hx])]
      rw [ih (acc ++ [x])]
      simp

theorem dedupSeen_mem (l : List RelatedImage) :
    ∀ seen e, e ∈ dedupSeen l seen →
      (seen.any (fun j => e.image = j.image) = false) ∧ e ∈ l := by
  induction l with
  | nil => intro seen e h; simp [dedupSeen] at h
  | cons x xs ih =>
    intro seen e h
    simp only [dedupSeen] at h
    by_cases hx : seen.any (fun j => x.image = j.image) = true
    · rw [if_pos hx] at h
      obtain ⟨h1, h2⟩ := ih seen e h
      exact ⟨h1, List.mem_cons_of_mem x h2⟩
    · simp only [Bool.not_eq_true] at hx
      rw [if_neg (by simp [hx])] at h
      rcases List.mem_cons.mp h with he | he
      · subst he
        exact ⟨hx, List.mem_cons_self e xs⟩
      · obtain ⟨h1, h2⟩ := ih (seen ++ [x]) e he
        simp only [List.any_append, Bool.or_eq_false_iff] at h1
        exact ⟨h1.1, List.mem_cons_of_mem x h2⟩

theorem dedupSeen_nodup_images (l : List RelatedImage) :
    ∀ seen, List.Nodup ((dedupSeen l seen).map (fun e => e.image)) := by
  induction l with
  | nil => intro seen; simp [dedupSeen]
  | cons x xs ih =>
    intro seen
    simp only [dedupSeen]
    by_cases hx : seen.any (fun j => x.image = j.image) = true
    · rw [if_pos hx]
      exact ih seen
    · simp only [Bool.not_eq_true] at hx
      rw [if_neg (by simp [hx])]
      simp only [List.map_cons, List.nodup_cons]
      refine ⟨?_, ih (seen ++ [x])⟩
      intro hmem
      obtain ⟨e, he, himg⟩ := List.mem_map.mp hmem
      obtain ⟨h1, _⟩ := dedupSeen_mem xs (seen ++ [x]) e he
      simp only [List.any_append, Bool.or_eq_false_iff] at h1
      have := h1.2
      simp only [List.any_cons, List.any_nil, Bool.or_false] at this
      rw [himg] at this
      simp at this

theorem dedupSeen_image_complete (l : List RelatedImage) :
    ∀ seen s, (∃ e ∈ l, e.image = s) → (seen.any (fun j => s = j.image) = false) →
      ∃ e ∈ dedupSeen l seen, e.image = s := by
  induction l with
  | nil => intro seen s h hseen; simp at h
  | cons x xs ih =>
    intro seen s h hseen
    simp only [dedupSeen]
    by_cases hx : seen.any (fun j => x.image = j.image) = true
    · rw [if_pos hx]
      rcases h with ⟨e, he, himg⟩
      rcases List.mem_cons.mp he with he1 | he1
      · subst he1
        rw [himg] at hx
        have : seen.any (fun j => s = j.image) = true := by
          obtain ⟨j, hj, hjeq⟩ := List.any_eq_true.mp hx
          exact List.any_eq_true.mpr ⟨j, hj, hjeq⟩
        rw [this] at hseen
        cases hseen
      · exact ih seen s ⟨e, he1, himg⟩ hseen
    · simp only [Bool.not_eq_true] at hx
      rw [if_neg (by simp [hx])]
      by_cases hxs : x.image = s
      · exact ⟨x, List.mem_cons_self x _, hxs⟩
      · rcases h with ⟨e, he, himg⟩
        rcases List.mem_cons.mp he with he1 | he1
        · subst he1
          exact absurd himg hxs
        · obtain ⟨e1, he2, himg2⟩ := ih (seen ++ [x]) s ⟨e, he1, himg⟩ (by
            simp only [List.any_append, Bool.or_eq_false_iff]
            refine ⟨hseen, ?_⟩
            simp only [List.any_cons, List.any_nil, Bool.or_false]
            simp [Ne.symm hxs])
          exact ⟨e1, List.mem_cons_of_mem x he2, himg2⟩

theorem dedupSeen_first_occurrence (l : List RelatedImage) :
    ∀ seen e, e ∈ dedupSeen l seen →
      ∃ p q, l = p ++ e :: q ∧ ∀ y ∈ p, y.image ≠ e.image := by
  induction l with
  | nil => intro seen e h; simp [dedupSeen] at h
  | cons x xs ih =>
    intro seen e h
    simp only [dedupSeen] at h
    by_cases hx : seen.any (fun j => x.image = j.image) = true
    · rw [if_pos hx] at h
      obtain ⟨hnotseen, _⟩ := dedupSeen_mem xs seen e h
      obtain ⟨p, q, heq, hne⟩ := ih seen e h
      refine ⟨x :: p, q, by rw [heq]; rfl, ?_⟩
      intro y hy
      rcases List.mem_cons.mp hy with hy1 | hy1
      · subst hy1
        intro hc
        rw [hc] at hx
        obtain ⟨j, hj, hjeq⟩ := List.any_eq_true.mp hx
        have : seen.any (fun j => e.image = j.image) = true :=
          List.any_eq_true.mpr ⟨j, hj, hjeq⟩
        rw [this] at hnotseen
        cases hnotseen
      · exact hne y hy1
    · simp only [Bool.not_eq_true] at hx
      rw [if_neg (by simp [hx])] at h
      rcases List.mem_cons.mp h with he | he
      · subst he
        exact ⟨[], xs, rfl, by simp⟩
      · obtain ⟨hnotseen, _⟩ := dedupSeen_mem xs (seen ++ [x]) e he
        simp only [List.any_append, Bool.or_eq_false_iff] at hnotseen
        obtain ⟨p, q, heq, hne⟩ := ih (seen ++ [x]) e he
        refine ⟨x :: p, q, by rw [heq]; rfl, ?_⟩
        intro y hy
        rcases List.mem_cons.mp hy with hy1 | hy1
        · subst hy1
          have := hnotseen.2
          simp only [List.any_cons, List.any_nil, Bool.or_false] at this
          intro hc
          rw [hc] at this
          simp at this
        · exact hne y hy1

theorem collectBundleImages_image_iff (mk : String → Option SemVer) (channels : List Channel)
    (packages : List IncludePackage) :
    ∀ (bs : List Bundle) (flat : List RelatedImage),
      collectBundleImages mk channels packages bs = Except.ok flat →
      ∀ s, (∃ e ∈ flat, e.image = s) ↔
        (∃ b ∈ bs, isPackageSelected mk b channels packages = Except.ok true ∧
          (b.image = s ∨ ∃ ri ∈ b.relatedImages, ri.image = s)) := by
  intro bs
  induction bs with
  | nil =>
    intro flat h s
    simp only [collectBundleImages] at h
    cases h
    simp
  | cons b rest ih =>
    intro flat h s
    simp only [collectBundleImages] at h
    cases hsel : isPackageSelected mk b channels packages with
    | error e =>
      simp only [hsel] at h
      cases h
    | ok sel =>
      simp only [hsel] at h
      cases htail : collectBundleImages mk channels packages rest with
      | error e =>
        simp only [htail] at h
        cases h
      | ok tail =>
        simp only [htail] at h
        cases sel with
        | true =>
          simp only [if_pos rfl] at h
          have hflat : flat = (⟨b.package, b.image⟩ : RelatedImage) :: b.relatedImages ++ tail := by
            cases h
            rfl
          subst hflat
          constructor
          · intro hmem
            obtain ⟨e, he, himg⟩ := hmem
            rcases List.mem_cons.mp he with he1 | he1
            · refine ⟨b, List.mem_cons_self b rest, hsel, Or.inl ?_⟩
              rw [← himg, he1]
            · rcases List.mem_append.mp he1 with he2 | he2
              · exact ⟨b, List.mem_cons_self b rest, hsel, Or.inr ⟨e, he2, himg⟩⟩
              · obtain ⟨b1, hb1, hb2, hb3⟩ := ((ih tail htail s).mp ⟨e, he2, himg⟩)
                exact ⟨b1, List.mem_cons_of_mem b hb1, hb2, hb3⟩
          · intro hmem
            obtain ⟨b1, hb1, hb2, hb3⟩ := hmem
            rcases List.mem_cons.mp hb1 with hb4 | hb4
            · subst hb4
              rcases hb3 with hb5 | ⟨ri, hri, hri2⟩
              · exact ⟨⟨b1.package, b1.image⟩, List.mem_cons_self _ _, hb5⟩
              · exact ⟨ri, List.mem_cons_of_mem _ (List.mem_append_left _ hri), hri2⟩
            · obtain ⟨e, he, himg⟩ := (ih tail htail s).mpr ⟨b1, hb4, hb2, hb3⟩
              exact ⟨e, List.mem_cons_of_mem _ (List.mem_append_right _ he), himg⟩
        | false =>
          simp only [Bool.false_eq_true, if_false] at h
          have hflat : flat = tail := by
            cases h
            rfl
          subst hflat
          rw [ih flat htail s]
          constructor
          · intro hmem
            obtain ⟨b1, hb1, hb2, hb3⟩ := hmem
            exact ⟨b1, List.mem_cons_of_mem b hb1, hb2, hb3⟩
          · intro hmem
            obtain ⟨b1, hb1, hb2, hb3⟩ := hmem
            rcases List.mem_cons.mp hb1 with hb4 | hb4
            · subst hb4
              rw [hsel] at hb2
              cases hb2
            · exact ⟨b1, hb4, hb2, hb3⟩

/-- C9: for every catalog and package filter on which getRelatedImages
succeeds, the emitted list equals, as a set keyed by image reference, the
union over the selected bundles of the bundle image and the images of its
relatedImages entries; the kept image references are pairwise distinct; and
every kept entry is the first occurrence, in bundle-traversal order (the
flat pre-dedup list), among the entries carrying its image, so that of two
entries with the same image and different names the first one survives. -/
theorem getRelatedImages_dedup_union (mk : String → Option SemVer) (cfg : DeclConfig)
    (packages : List IncludePackage) (flat res : List RelatedImage)
    (hflat : collectBundleImages mk cfg.channels (effectivePackages cfg packages) cfg.bundles =
      Except.ok flat)
    (hres : getRelatedImages mk cfg packages = Except.ok res) :
    (∀ s, (∃ e ∈ res, e.image = s) ↔
      claimImageSet mk cfg (effectivePackages cfg packages) s)
    ∧ List.Nodup (res.map (fun e => e.image))
    ∧ (∀ e ∈ res, ∃ p q, flat = p ++ e :: q ∧ ∀ y ∈ p, y.image ≠ e.image) := by
  have hres1 : res = dedupByImage flat := by
    unfold getRelatedImages at hres
    rw [hflat] at hres
    simp only [Except.map] at hres
    cases hres
    rfl
  have hdd : dedupByImage flat = dedupSeen flat [] := by
    unfold dedupByImage
    rw [dedupByImage_eq_dedupSeen flat []]
    rfl
  subst hres1
  rw [hdd]
  refine ⟨?_, dedupSeen_nodup_images flat [], fun e he => dedupSeen_first_occurrence flat [] e he⟩
  intro s
  constructor
  · intro hmem
    obtain ⟨e, he, himg⟩ := hmem
    obtain ⟨_, hin⟩ := dedupSeen_mem flat [] e he
    exact (collectBundleImages_image_iff mk cfg.channels (effectivePackages cfg packages)
      cfg.bundles flat hflat s).mp ⟨e, hin, himg⟩
  · intro hclaim
    have hmem := (collectBundleImages_image_iff mk cfg.channels (effectivePackages cfg packages)
      cfg.bundles flat hflat s).mpr hclaim
    exact dedupSeen_image_complete flat [] s hmem (by simp)

/-- C9 witness: a catalog where the image J is contributed by two selected
bundles under different names; it is kept exactly once, as the entry named r
(the first occurrence), and the image list is duplicate-free. -/
theorem getRelatedImages_dedup_union_witness :
    getRelatedImages (fun _ => none)
      ⟨[⟨"foo", "stable"⟩], [],
        [⟨"foo.v1", "foo", "I", [], [⟨"r", "J"⟩]⟩,
         ⟨"foo.v2", "foo", "K", [], [⟨"other", "J"⟩]⟩]⟩
      [⟨"foo", "", ""⟩] =
      Except.ok [⟨"foo", "I"⟩, ⟨"r", "J"⟩, ⟨"foo", "K"⟩]
    ∧ List.Nodup ([⟨"foo", "I"⟩, ⟨"r", "J"⟩, ⟨"foo", "K"⟩].map
        (fun e : RelatedImage => e.image)) :=
  ⟨rfl,
   (getRelatedImages_dedup_union (fun _ => none)
      ⟨[⟨"foo", "stable"⟩], [],
        [⟨"foo.v1", "foo", "I", [], [⟨"r", "J"⟩]⟩,
         ⟨"foo.v2", "foo", "K", [], [⟨"other", "J"⟩]⟩]⟩
      [⟨"foo", "", ""⟩]
      [⟨"foo", "I"⟩, ⟨"r", "J"⟩, ⟨"foo", "K"⟩, ⟨"other", "J"⟩]
      [⟨"foo", "I"⟩, ⟨"r", "J"⟩, ⟨"foo", "K"⟩]
      rfl rfl).2.1⟩

/-! ## C4: blob gatherer reachability -/

theorem reach_image_oci_iff (fetch : String → Option (MediaT × Doc)) (c : String)
    (layers : List String) (x : String) :
    Reach fetch MediaT.ociManifest (Doc.image c layers) x ↔ (x ∈ layers ∨ x = c) := by
  constructor
  · intro h
    cases h with
    | ociLayer hmem => exact Or.inl hmem
    | ociConfig => exact Or.inr rfl
  · intro h
    rcases h with h | h
    · exact Reach.ociLayer h
    · subst h
      exact Reach.ociConfig

theorem reach_image_docker_iff (fetch : String → Option (MediaT × Doc)) (c : String)
    (layers : List String) (x : String) :
    Reach fetch MediaT.dockerManifest (Doc.image c layers) x ↔ (x ∈ layers ∨ x = c) := by
  constructor
  · intro h
    cases h with
    | dockerLayer hmem => exact Or.inl hmem
    | dockerConfig => exact Or.inr rfl
  · intro h
    rcases h with h | h
    · exact Reach.dockerLayer h
    · subst h
      exact Reach.dockerConfig

theorem reach_other_iff (fetch : String → Option (MediaT × Doc)) (d : Doc) (x : String) :
    Reach fetch MediaT.otherMedia d x ↔ False := by
  constructor
  · intro h
    cases h
  · intro h
    cases h

theorem reach_index_nil_iff (fetch : String → Option (MediaT × Doc)) (x : String) :
    Reach fetch MediaT.ociIndex (Doc.index []) x ↔ False := by
  constructor
  · intro h
    cases h with
    | indexChild hmem => cases hmem
    | indexRec hmem _ => cases hmem
  · intro h
    cases h

theorem reach_index_cons_iff (fetch : String → Option (MediaT × Doc)) (dg : String)
    (mt : MediaT) (dat : Option Doc) (rest : List (String × MediaT × Option Doc)) (x : String) :
    Reach fetch MediaT.ociIndex (Doc.index ((dg, mt, dat) :: rest)) x ↔
      (x = dg ∨ (∃ d, dat = some d ∧ Reach fetch mt d x)
        ∨ Reach fetch MediaT.ociIndex (Doc.index rest) x) := by
  constructor
  · intro h
    cases h with
    | indexChild hmem =>
      rcases List.mem_cons.mp hmem with he | he
      · cases he
        exact Or.inl rfl
      · exact Or.inr (Or.inr (Reach.indexChild he))
    | indexRec hmem hr =>
      rcases List.mem_cons.mp hmem with he | he
      · cases he
        exact Or.inr (Or.inl ⟨_, rfl, hr⟩)
      · exact Or.inr (Or.inr (Reach.indexRec he hr))
  · intro h
    rcases h with h | ⟨d, hd, hr⟩ | h
    · subst h
      exact Reach.indexChild (List.mem_cons_self _ _)
    · subst hd
      exact Reach.indexRec (List.mem_cons_self _ _) hr
    · cases h with
      | indexChild hmem => exact Reach.indexChild (List.mem_cons_of_mem _ hmem)
      | indexRec hmem hr => exact Reach.indexRec (List.mem_cons_of_mem _ hmem) hr

theorem reach_list_nil_iff (fetch : String → Option (MediaT × Doc)) (x : String) :
    Reach fetch MediaT.dockerList (Doc.mlist []) x ↔ False := by
  constructor
  · intro h
    cases h with
    | listChild hmem => cases hmem
    | listRec hmem _ _ => cases hmem
  · intro h
    cases h

theorem reach_list_cons_iff (fetch : String → Option (MediaT × Doc)) (dg : String)
    (rest : List String) (x : String) :
    Reach fetch MediaT.dockerList (Doc.mlist (dg :: rest)) x ↔
      (x = dg ∨ (∃ mt d, fetch dg = some (mt, d) ∧ Reach fetch mt d x)
        ∨ Reach fetch MediaT.dockerList (Doc.mlist rest) x) := by
  constructor
  · intro h
    cases h with
    | listChild hmem =>
      rcases List.mem_cons.mp hmem with he | he
      · exact Or.inl he
      · exact Or.inr (Or.inr (Reach.listChild he))
    | listRec hmem hf hr =>
      rcases List.mem_cons.mp hmem with he | he
      · subst he
        exact Or.inr (Or.inl ⟨_, _, hf, hr⟩)
      · exact Or.inr (Or.inr (Reach.listRec he hf hr))
  · intro h
    rcases h with h | ⟨mt, d, hf, hr⟩ | h
    · subst h
      exact Reach.listChild (List.mem_cons_self _ _)
    · exact Reach.listRec (List.mem_cons_self _ _) hf hr
    · cases h with
      | listChild hmem => exact Reach.listChild (List.mem_cons_of_mem _ hmem)
      | listRec hmem hf hr => exact Reach.listRec (List.mem_cons_of_mem _ hmem) hf hr

theorem reachCall_top_iff (fetch : String → Option (MediaT × Doc)) (mt : MediaT)
    (dat : Option Doc) (x : String) :
    ReachCall fetch (GbCall.top mt dat) x ↔ ∃ d, dat = some d ∧ Reach fetch mt d x := by
  cases dat with
  | none =>
    simp only [ReachCall]
    constructor
    · intro h
      cases h
    · intro ⟨d, hd, _⟩
      cases hd
  | some d =>
    simp only [ReachCall]
    constructor
    · intro h
      exact ⟨d, rfl, h⟩
    · intro ⟨d1, hd, hr⟩
      injection hd with hd1
      rw [hd1]
      exact hr

theorem gbGo_mem_iff (fetch : String → Option (MediaT × Doc)) :
    ∀ (fuel : Nat) (c : GbCall) (bs : List String),
      gbGo fetch fuel c = Except.ok bs → ∀ x, (x ∈ bs ↔ ReachCall fetch c x) := by
  intro fuel
  induction fuel with
  | zero =>
    intro c bs h
    cases h
  | succ n ih =>
    intro c bs h x
    cases c with
    | top mt dat =>
      cases mt with
      | ociManifest =>
        cases dat with
        | none => cases h
        | some d =>
          cases d with
          | image config layers =>
            simp only [gbGo, gbOci] at h
            cases h
            simp only [ReachCall, reach_image_oci_iff]
            simp [List.mem_append]
          | index es => cases h
          | mlist dgs => cases h
      | dockerManifest =>
        cases dat with
        | none => cases h
        | some d =>
          cases d with
          | image config layers =>
            simp only [gbGo, gbDocker] at h
            cases h
            simp only [ReachCall, reach_image_docker_iff]
            simp [List.mem_append]
          | index es => cases h
          | mlist dgs => cases h
      | ociIndex =>
        cases dat with
        | none => cases h
        | some d =>
          cases d with
          | image config layers => cases h
          | index es =>
            simp only [gbGo] at h
            exact ih (GbCall.entries es) bs h x
          | mlist dgs => cases h
      | dockerList =>
        cases dat with
        | none => cases h
        | some d =>
          cases d with
          | image config layers => cases h
          | index es => cases h
          | mlist dgs =>
            simp only [gbGo] at h
            exact ih (GbCall.listEntries dgs) bs h x
      | otherMedia =>
        simp only [gbGo] at h
        cases h
        cases dat with
        | none => simp [ReachCall]
        | some d => simp [ReachCall, reach_other_iff]
    | entries es =>
      cases es with
      | nil =>
        simp only [gbGo] at h
        cases h
        simp [ReachCall, reach_index_nil_iff]
      | cons e rest =>
        obtain ⟨dg, mt, dat⟩ := e
        simp only [gbGo] at h
        cases hsub : gbGo fetch n (GbCall.top mt dat) with
        | error e1 =>
          rw [hsub] at h
          cases h
        | ok sub =>
          rw [hsub] at h
          cases htail : gbGo fetch n (GbCall.entries rest) with
          | error e1 =>
            rw [htail] at h
            cases h
          | ok tail =>
            rw [htail] at h
            cases h
            simp only [ReachCall, reach_index_cons_iff]
            constructor
            · intro hmem
              rcases List.mem_cons.mp hmem with hmem1 | hmem1
              · exact Or.inl hmem1
              · rcases List.mem_append.mp hmem1 with hmem2 | hmem2
                · exact Or.inr (Or.inl
                    ((reachCall_top_iff fetch mt dat x).mp ((ih _ sub hsub x).mp hmem2)))
                · exact Or.inr (Or.inr ((ih _ tail htail x).mp hmem2))
            · intro hreach
              rcases hreach with h1 | h1 | h1
              · exact h1 ▸ List.mem_cons_self _ _
              · exact List.mem_cons_of_mem _ (List.mem_append_left _
                  ((ih _ sub hsub x).mpr ((reachCall_top_iff fetch mt dat x).mpr h1)))
              · exact List.mem_cons_of_mem _ (List.mem_append_right _
                  ((ih _ tail htail x).mpr h1))
    | listEntries dgs =>
      cases dgs with
      | nil =>
        simp only [gbGo] at h
        cases h
        simp [ReachCall, reach_list_nil_iff]
      | cons dg rest =>
        simp only [gbGo] at h
        cases hf : fetch dg with
        | none =>
          simp only [hf] at h
          cases h
        | some p =>
          obtain ⟨mt, doc⟩ := p
          simp only [hf] at h
          cases hsub : gbGo fetch n (GbCall.top mt (some doc)) with
          | error e1 =>
            rw [hsub] at h
            cases h
          | ok sub =>
            rw [hsub] at h
            cases htail : gbGo fetch n (GbCall.listEntries rest) with
            | error e1 =>
              rw [htail] at h
              cases h
            | ok tail =>
              rw [htail] at h
              cases h
              simp only [ReachCall, reach_list_cons_iff]
              constructor
              · intro hmem
                rcases List.mem_cons.mp hmem with hmem1 | hmem1
                · exact Or.inl hmem1
                · rcases List.mem_append.mp hmem1 with hmem2 | hmem2
                  · exact Or.inr (Or.inl ⟨mt, doc, hf, (ih _ sub hsub x).mp hmem2⟩)
                  · exact Or.inr (Or.inr ((ih _ tail htail x).mp hmem2))
              · intro hreach
                rcases hreach with h1 | ⟨mt1, d1, hf1, h1⟩ | h1
                · exact h1 ▸ List.mem_cons_self _ _
                · rw [hf] at hf1
                  injection hf1 with hf2
                  injection hf2 with hf3 hf4
                  subst hf3
                  subst hf4
                  exact List.mem_cons_of_mem _ (List.mem_append_left _
                    ((ih _ sub hsub x).mpr h1))
                · exact List.mem_cons_of_mem _ (List.mem_append_right _
                    ((ih _ tail htail x).mpr h1))

/-- C4 (amended): whenever GatherBlobs completes successfully on a top
manifest, the returned list contains a digest if and only if it is
transitively reachable from that manifest (child manifest digests of every
index and manifest list, config and layer digests of every image manifest):
the result is complete and sound as a set. A digest reachable along several
paths, however, appears once per occurrence - the gatherer never
deduplicates, which refutes the exactly-once part of the claim as stated
(see the counterexample). -/
theorem gatherBlobs_reachable_set (fetch : String → Option (MediaT × Doc)) (fuel : Nat)
    (mt : MediaT) (d : Doc) (bs : List String)
    (h : gatherBlobs fetch fuel mt d = Except.ok bs) :
    ∀ x, x ∈ bs ↔ Reach fetch mt d x :=
  gbGo_mem_iff fetch fuel (GbCall.top mt (some d)) bs h

/-- C4 witness: a two-layer image manifest gathered with ample fuel; the
theorem instantiates to the layer digest l1 being in the result iff
reachable. -/
theorem gatherBlobs_reachable_set_witness :
    gatherBlobs (fun _ => none) 3 MediaT.ociManifest (Doc.image "cfg" ["l1", "l2"]) =
      Except.ok ["l1", "l2", "cfg"]
    ∧ ("l1" ∈ ["l1", "l2", "cfg"] ↔
        Reach (fun _ => none) MediaT.ociManifest (Doc.image "cfg" ["l1", "l2"]) "l1") :=
  ⟨rfl,
   gatherBlobs_reachable_set (fun _ => none) 3 MediaT.ociManifest
     (Doc.image "cfg" ["l1", "l2"]) ["l1", "l2", "cfg"] rfl "l1"⟩

/-- C4 counterexample: an OCI index whose two child image manifests share a
layer digest. GatherBlobs succeeds and returns the shared digest twice, so a
reachable digest does not appear exactly once in the result. -/
theorem gatherBlobs_duplicate_counterexample :
    gatherBlobs (fun _ => none) 10 MediaT.ociIndex
      (Doc.index
        [("d1", MediaT.ociManifest, some (Doc.image "c1" ["shared"])),
         ("d2", MediaT.ociManifest, some (Doc.image "c2" ["shared"]))]) =
      Except.ok ["d1", "shared", "c1", "d2", "shared", "c2"]
    ∧ List.count "shared" ["d1", "shared", "c1", "d2", "shared", "c2"] = 2 := by
  refine ⟨rfl, by decide⟩

/-! ## C5: archive extraction -/

theorem lor_0o755_land_0o700 (m : Nat) : Nat.land (Nat.lor m 0o755) 0o700 = 0o700 := by
  apply Nat.eq_of_testBit_eq
  intro i
  show ((m ||| 0o755) &&& 0o700).testBit i = Nat.testBit 0o700 i
  rw [Nat.testBit_land, Nat.testBit_lor]
  by_cases h448 : Nat.testBit 448 i = true
  · have hi : i < 9 := by
      by_contra hge
      push_neg at hge
      have hlt : (448 : Nat) < 2 ^ i :=
        lt_of_lt_of_le (by norm_num) (Nat.pow_le_pow_right (by norm_num) hge)
      rw [Nat.testBit_lt_two_pow hlt] at h448
      cases h448
    clear h448
    interval_cases i <;> (generalize m.testBit _ = b; revert b; decide)
  · simp only [Bool.not_eq_true] at h448
    rw [h448]
    simp

/-- C5 (amended): the extractor opens only the first archive chunk
(mirror_000001.tar; NewArchiveExtractor fixes chunk 1, later chunks are
never read - the every-chunk part of the claim as stated is refuted by the
counterexample below). For each regular-file entry of that chunk: a name
containing the working-dir marker is written under the parent of the working
root, else a name containing the registry-cache marker is written under the
cache root, and any other entry - the embedded image-set configuration
included - is ignored, as are non-regular entries; every written file mode
is the entry mode or-ed with 0755, which includes owner read, write and
execute. -/
theorem unarchive_chunk1_extraction (chunks : Nat → Option (List TarHeader))
    (wd cd : String) (es : List TarHeader)
    (h1 : chunks 1 = some es) :
    unarchiveRun chunks wd cd = Except.ok (es.filterMap (extractEntry wd cd))
    ∧ (∀ e ∈ es, e.typeflag = TarTypeflag.reg → containsSub e.name workingDirectory = true →
        extractEntry wd cd e = some (filepathJoin (filepathDir wd) e.name, Nat.lor e.mode 0o755))
    ∧ (∀ e ∈ es, e.typeflag = TarTypeflag.reg → containsSub e.name workingDirectory = false →
        containsSub e.name cacheFileMarker = true →
        extractEntry wd cd e = some (filepathJoin cd e.name, Nat.lor e.mode 0o755))
    ∧ (∀ e ∈ es, e.typeflag = TarTypeflag.reg → containsSub e.name workingDirectory = false →
        containsSub e.name cacheFileMarker = false → extractEntry wd cd e = none)
    ∧ (∀ e ∈ es, e.typeflag ≠ TarTypeflag.reg → extractEntry wd cd e = none)
    ∧ (∀ p m, (p, m) ∈ es.filterMap (extractEntry wd cd) → Nat.land m 0o700 = 0o700) := by
  refine ⟨?_, ?_, ?_, ?_, ?_, ?_⟩
  · unfold unarchiveRun newArchiveExtractor
    rw [h1]
    rfl
  · intro e he hreg hw
    unfold extractEntry
    rw [if_pos hreg, if_pos hw]
  · intro e he hreg hw hc
    unfold extractEntry
    rw [if_pos hreg, if_neg (by rw [hw]; exact Bool.false_ne_true), if_pos hc]
  · intro e he hreg hw hc
    unfold extractEntry
    rw [if_pos hreg, if_neg (by rw [hw]; exact Bool.false_ne_true),
      if_neg (by rw [hc]; exact Bool.false_ne_true)]
  · intro e he hreg
    unfold extractEntry
    rw [if_neg hreg]
  · intro p m hmem
    obtain ⟨e, he, hsome⟩ := List.mem_filterMap.mp hmem
    unfold extractEntry at hsome
    by_cases hreg : e.typeflag = TarTypeflag.reg
    · rw [if_pos hreg] at hsome
      by_cases hw : containsSub e.name workingDirectory = true
      · rw [if_pos hw] at hsome
        injection hsome with hpair
        have hm : m = Nat.lor e.mode 0o755 := congrArg Prod.snd hpair |>.symm
        rw [hm]
        exact lor_0o755_land_0o700 e.mode
      · rw [if_neg hw] at hsome
        by_cases hc : containsSub e.name cacheFileMarker = true
        · rw [if_pos hc] at hsome
          injection hsome with hpair
          have hm : m = Nat.lor e.mode 0o755 := congrArg Prod.snd hpair |>.symm
          rw [hm]
          exact lor_0o755_land_0o700 e.mode
        · rw [if_neg hc] at hsome
          cases hsome
    · rw [if_neg hreg] at hsome
      cases hsome

/-- C5 witness: a chunk-1 archive with one regular working-dir file; it is
extracted under the parent of the working root with mode 0600 or 0755, whose
owner bits include read, write and execute. -/
theorem unarchive_chunk1_extraction_witness :
    unarchiveRun (fun n => if n = 1 then some [⟨TarTypeflag.reg, "working-dir/x", 0o600⟩] else none)
      "root/working-dir" "cache" =
      Except.ok [("root/working-dir/x", Nat.lor 0o600 0o755)]
    ∧ Nat.land (Nat.lor 0o600 0o755) 0o700 = 0o700 :=
  ⟨((unarchive_chunk1_extraction
      (fun n => if n = 1 then some [⟨TarTypeflag.reg, "working-dir/x", 0o600⟩] else none)
      "root/working-dir" "cache" [⟨TarTypeflag.reg, "working-dir/x", 0o600⟩] rfl).1).trans rfl,
   (unarchive_chunk1_extraction
      (fun n => if n = 1 then some [⟨TarTypeflag.reg, "working-dir/x", 0o600⟩] else none)
      "root/working-dir" "cache" [⟨TarTypeflag.reg, "working-dir/x", 0o600⟩] rfl).2.2.2.2.2
      "root/working-dir/x" (Nat.lor 0o600 0o755) (List.mem_singleton.mpr rfl)⟩

/-- C5 counterexample: an archive of two chunks whose second chunk holds a
regular working-dir file. The claim has every chunk opened and that entry
written under the working root; the extractor only ever opens chunk 1, so
nothing at all is extracted. -/
theorem unarchive_ignores_chunk2_counterexample :
    unarchiveRun
      (fun n => if n = 1 then some []
        else if n = 2 then some [⟨TarTypeflag.reg, "working-dir/a", 0o644⟩] else none)
      "w/working-dir" "cache" = Except.ok []
    ∧ (fun n => if n = 1 then some ([] : List TarHeader)
        else if n = 2 then some [⟨TarTypeflag.reg, "working-dir/a", 0o644⟩] else none) 2 =
        some [⟨TarTypeflag.reg, "working-dir/a", 0o644⟩]
    ∧ extractEntry "w/working-dir" "cache" ⟨TarTypeflag.reg, "working-dir/a", 0o644⟩ =
        some ("w/working-dir/a", Nat.lor 0o644 0o755) := by
  refine ⟨rfl, rfl, rfl⟩

/-! ## C6: delete-metadata document -/

/-- C6: for every non-empty image list the document WriteDeleteMetaData
(v2alpha1 variant) marshals has kind DeleteImageList and apiVersion
mirror.openshift.io/v2alpha1, its items are sorted in ascending order of the
imageReference field, and they are a permutation of the per-image items
(ImageName from Origin, ImageReference from Destination); this holds
whatever the outcome of the directory, marshal and write steps. -/
theorem writeDeleteMetaData_document (env : WriteDeleteMetaDataEnv)
    (images : List CopyImageSchema) (hne : images ≠ []) :
    (writeDeleteMetaData env images).list.kind = "DeleteImageList"
    ∧ (writeDeleteMetaData env images).list.apiVersion = "mirror.openshift.io/v2alpha1"
    ∧ List.Sorted (fun a b : DeleteItem => a.imageReference ≤ b.imageReference)
        (writeDeleteMetaData env images).list.items
    ∧ ((writeDeleteMetaData env images).list.items).Perm (writeDeleteItems images) := by
  refine ⟨rfl, rfl, ?_, ?_⟩
  · have hp := @List.sorted_mergeSort DeleteItem deleteItemLe
      (fun a b c hab hbc => by
        simp only [deleteItemLe, decide_eq_true_eq] at hab hbc ⊢
        exact le_trans hab hbc)
      (fun a b => by
        simp only [deleteItemLe]
        rcases le_total a.imageReference b.imageReference with h | h
        · simp [h]
        · simp [h])
      (writeDeleteItems images)
    exact List.Pairwise.imp (fun hab => by
      simpa only [deleteItemLe, decide_eq_true_eq] using hab) hp
  · exact List.mergeSort_perm (writeDeleteItems images) deleteItemLe

/-- C6 witness: a concrete two-image list (destinations out of order) run
through the document construction with all steps succeeding. -/
theorem writeDeleteMetaData_document_witness :
    (writeDeleteMetaData ⟨false, false, false, false, false⟩
      [⟨"s1", "docker://r/b", "o1", ImageType.generic⟩,
       ⟨"s2", "docker://r/a", "o2", ImageType.generic⟩]).list.kind = "DeleteImageList"
    ∧ (writeDeleteMetaData ⟨false, false, false, false, false⟩
        [⟨"s1", "docker://r/b", "o1", ImageType.generic⟩,
         ⟨"s2", "docker://r/a", "o2", ImageType.generic⟩]).list.apiVersion =
        "mirror.openshift.io/v2alpha1"
    ∧ List.Sorted (fun a b : DeleteItem => a.imageReference ≤ b.imageReference)
        (writeDeleteMetaData ⟨false, false, false, false, false⟩
          [⟨"s1", "docker://r/b", "o1", ImageType.generic⟩,
           ⟨"s2", "docker://r/a", "o2", ImageType.generic⟩]).list.items :=
  ⟨(writeDeleteMetaData_document ⟨false, false, false, false, false⟩
      [⟨"s1", "docker://r/b", "o1", ImageType.generic⟩,
       ⟨"s2", "docker://r/a", "o2", ImageType.generic⟩] (by decide)).1,
   (writeDeleteMetaData_document ⟨false, false, false, false, false⟩
      [⟨"s1", "docker://r/b", "o1", ImageType.generic⟩,
       ⟨"s2", "docker://r/a", "o2", ImageType.generic⟩] (by decide)).2.1,
   (writeDeleteMetaData_document ⟨false, false, false, false, false⟩
      [⟨"s1", "docker://r/b", "o1", ImageType.generic⟩,
       ⟨"s2", "docker://r/a", "o2", ImageType.generic⟩] (by decide)).2.2.1⟩

/-! ## C10: WriteDeleteMetaData never reports failure -/

/-- C10: WriteDeleteMetaData returns nil for every input and every
combination of failing steps: in the v2alpha1 variant, directory creation,
either YAML marshal and either file write may all fail and are only logged;
in the legacy v1alpha variant the same holds with any number of additional
GatherBlobs failures. A delete-generate run therefore never reports failure
through this return value, however incomplete the metadata written. -/
theorem writeDeleteMetaData_always_nil (env : WriteDeleteMetaDataEnv)
    (images : List CopyImageSchema) (env1 : WriteDeleteMetaDataV1Env) :
    (writeDeleteMetaData env images).returnedError = none
    ∧ (writeDeleteMetaDataV1 env1).1 = none :=
  ⟨rfl, rfl⟩
